import Mathlib

/-!
Verification development for the QuestWhiz collision-geometry engine
(`collision.py`, `WorldsCollide.py`).

Modelling conventions:
* A byte stream is a `List Nat` whose entries are bytes (each `< 256`).
* The binary decoder (`CollisionWorld.load` and the `ProxyGeometry` /
  `ProxyMesh` loaders) never interprets `float32` fields numerically, so
  float fields are kept as their raw little-endian 32-bit words (`Nat`).
* Python float values in the geometry layer are modelled as exact rationals
  (every IEEE double is a rational number); trigonometric quantities needed
  for the disc approximation live in `ℝ`.
* Python exceptions raised during a decode are modelled by `Except`: a
  raised exception means no record list is returned to the caller.
-/

namespace QuestWhiz

/-! ## Binary decode layer (collision.py: StructIO, ProxyGeometry, ProxyMesh,
CollisionWorld) -/

/-- Decode failure. `truncated` models `struct.error` raised by
`StructIO.unpack` when fewer bytes remain than the format needs; the carried
number is the byte offset at which the failing read started.
`badProxyKind` models the `ValueError` from `ProxyType(...)` on an
unrecognized ordinal and from the `case _` branch of `ProxyGeometry.load`.
`badFlagBits` models the `ValueError` from `CollisionFlag(...)` when a bit
outside the closed flag set is present. -/
inductive DecodeErr where
  | truncated (offset : Nat)
  | badProxyKind (ordinal : Int) (offset : Nat)
  | badFlagBits (bits : Nat) (offset : Nat)
  deriving Repr, DecidableEq

/-- Sequential-access read cursor over the raw bytes (`StructIO`):
the bytes not yet consumed plus the absolute offset consumed so far. -/
structure Cursor where
  rest : List Nat
  offset : Nat
  deriving Repr, DecidableEq

/-- The `struct.unpack` read primitive: all-or-nothing read of `k` bytes;
`struct.error` when fewer than `k` bytes remain. -/
def takeBytes (k : Nat) (s : Cursor) : Except DecodeErr (List Nat × Cursor) :=
  if k ≤ s.rest.length then
    .ok (s.rest.take k, ⟨s.rest.drop k, s.offset + k⟩)
  else .error (.truncated s.offset)

/-- Little-endian byte-list to word. -/
def leWord : List Nat → Nat
  | [] => 0
  | b :: bs => b + 256 * leWord bs

/-- Two's-complement reading of a 32-bit word as a signed int (`<i`). -/
def toSigned (n : Nat) : Int :=
  if n < 2 ^ 31 then (n : Int) else (n : Int) - 2 ^ 32

/-- Read one unsigned 32-bit little-endian word (`<I`, and the raw word of a
`float32` field, which the decoder never interprets). -/
def readU32 (s : Cursor) : Except DecodeErr (Nat × Cursor) := do
  let (bs, s1) ← takeBytes 4 s
  .ok (leWord bs, s1)

/-- Read one signed 32-bit little-endian integer (`<i`). -/
def readI32 (s : Cursor) : Except DecodeErr (Int × Cursor) := do
  let (bs, s1) ← takeBytes 4 s
  .ok (toSigned (leWord bs), s1)

/-- Split a byte list into consecutive 32-bit little-endian words. -/
def wordsOf : List Nat → List Nat
  | b0 :: b1 :: b2 :: b3 :: bs => leWord [b0, b1, b2, b3] :: wordsOf bs
  | _ => []

/-- One `struct.unpack` call reading `k` consecutive 32-bit words
(for example the 9-float rotation matrix): all-or-nothing over `4*k` bytes. -/
def readWords (k : Nat) (s : Cursor) : Except DecodeErr (List Nat × Cursor) := do
  let (bs, s1) ← takeBytes (4 * k) s
  .ok (wordsOf bs, s1)

/-- One `struct.unpack` call reading three consecutive 32-bit words
(`<fff` and `<iii`), returned as a triple. -/
def readVec (s : Cursor) : Except DecodeErr ((Nat × Nat × Nat) × Cursor) := do
  let (bs, s1) ← takeBytes 12 s
  .ok ((leWord (bs.take 4), leWord ((bs.drop 4).take 4), leWord (bs.drop 8)), s1)

/-- The raw-byte read used by `StructIO.read_string` after its length field:
Python `BytesIO.read(n)` never raises — a negative `n` reads to the end of
the stream and an `n` past the end returns only what remains. -/
def readRaw (n : Int) (s : Cursor) : List Nat × Cursor :=
  if n < 0 then (s.rest, ⟨[], s.offset + s.rest.length⟩)
  else
    let k := min n.toNat s.rest.length
    (s.rest.take k, ⟨s.rest.drop k, s.offset + k⟩)

/-- The `StructIO.read_string` primitive: `int32` length then that many raw
bytes (kept as bytes; UTF-8 decoding is irrelevant to every claim here). -/
def readString (s : Cursor) : Except DecodeErr (List Nat × Cursor) := do
  let (len, s1) ← readI32 s
  .ok (readRaw len s1)

/-- The kind-specific payload of a geometry record
(`BoxGeomParams` … `MeshGeomParams` in collision.py), float32 fields kept as
raw words. -/
inductive RecParams where
  | box (l w d : Nat)
  | ray (o dir len : Nat)
  | sphere (r : Nat)
  | cylinder (r len : Nat)
  | tube (r len : Nat)
  | plane (nx ny nz dist : Nat)
  | mesh
  deriving Repr, DecidableEq

/-- Vertex/face block of a `ProxyMesh` record: vertices, face index triples
and per-face normals (faces and normals are read interleaved, one `<iii>`
then one `<fff>` per face). -/
structure MeshData where
  vertices : List (Nat × Nat × Nat)
  faces : List (Nat × Nat × Nat)
  normals : List (Nat × Nat × Nat)
  deriving Repr, DecidableEq

/-- One decoded geometry record (`ProxyGeometry` / `ProxyMesh`).
`meshData` is `some` exactly when the leading proxy-kind ordinal of the
record was `6` (MESH); `params` is keyed by the repeated ordinal inside the
shared header, as in the source. -/
structure RawRecord where
  category : Nat
  collide : Nat
  meshData : Option MeshData
  name : List Nat
  rotation : List Nat
  location : List Nat
  scaleWord : Nat
  material : List Nat
  params : RecParams
  deriving Repr, DecidableEq

/-- The closed bit set of `CollisionFlag`: OBJECT 1, WALKABLE 2, HITSCAN 8,
LOCAL_PLAYER 16, WATER 64, CLIENT_OBJECT 128, TRIGGER 256, FOG 512, GOO 1024,
FISH 2048, MUCK 4096, TAR 8192. Bits 2 and 5 are not defined. -/
def validFlagMask : Nat := 16347

/-- Parse the kind-specific payload selected by the repeated proxy-kind
ordinal, mirroring the `match self.proxy` of `ProxyGeometry.load`. Ordinal 7
(`INVALID`) and anything outside 0..7 raise in the source. -/
def parseParams (ptype : Int) (s : Cursor) : Except DecodeErr (RecParams × Cursor) :=
  if ptype = 0 then do
    let (v, s1) ← readVec s
    .ok (.box v.1 v.2.1 v.2.2, s1)
  else if ptype = 1 then do
    let (v, s1) ← readVec s
    .ok (.ray v.1 v.2.1 v.2.2, s1)
  else if ptype = 2 then do
    let (r, s1) ← readU32 s
    .ok (.sphere r, s1)
  else if ptype = 3 then do
    let (r, s1) ← readU32 s
    let (l, s2) ← readU32 s1
    .ok (.cylinder r l, s2)
  else if ptype = 4 then do
    let (r, s1) ← readU32 s
    let (l, s2) ← readU32 s1
    .ok (.tube r l, s2)
  else if ptype = 5 then do
    let (w, s1) ← readWords 4 s
    match w with
    | [nx, ny, nz, d] => .ok (.plane nx ny nz d, s1)
    | _ => .error (.truncated s1.offset)
  else if ptype = 6 then
    .ok (.mesh, s)
  else
    .error (.badProxyKind ptype s.offset)

/-- The shared geometry header of `ProxyGeometry.load`: name, 9-word
rotation, 3-word location, scale, material, repeated proxy-kind ordinal and
the kind-specific payload. -/
def parseGeometryHeader (s : Cursor) :
    Except DecodeErr ((List Nat × List Nat × List Nat × Nat × List Nat × RecParams) × Cursor) := do
  let (name, s1) ← readString s
  let (rot, s2) ← readWords 9 s1
  let (loc, s3) ← readWords 3 s2
  let (scw, s4) ← readU32 s3
  let (material, s5) ← readString s4
  let (ptype2, s6) ← readI32 s5
  let (params, s7) ← parseParams ptype2 s6
  .ok ((name, rot, loc, scw, material, params), s7)

/-- The vertex loop of `ProxyMesh.load`. -/
def parseVerts : Nat → Cursor → Except DecodeErr (List (Nat × Nat × Nat) × Cursor)
  | 0, s => .ok ([], s)
  | n + 1, s => do
    let (v, s1) ← readVec s
    let (vs, s2) ← parseVerts n s1
    .ok (v :: vs, s2)

/-- The face loop of `ProxyMesh.load`: per face one `<iii>` index triple then
one `<fff>` normal. -/
def parseFaces : Nat → Cursor →
    Except DecodeErr ((List (Nat × Nat × Nat) × List (Nat × Nat × Nat)) × Cursor)
  | 0, s => .ok (([], []), s)
  | n + 1, s => do
    let (f, s1) ← readVec s
    let (nm, s2) ← readVec s1
    let ((fs, ns), s3) ← parseFaces n s2
    .ok ((f :: fs, nm :: ns), s3)

/-- One iteration of the `CollisionWorld.load` loop: `<iII>` header, the
`CollisionFlag` constructions (which raise on a bit outside the closed set),
the `ProxyType` construction (which raises outside 0..7), the mesh
vertex/face block read before the shared header for MESH records only, and
the shared header with its payload. -/
def parseRecord (s : Cursor) : Except DecodeErr (RawRecord × Cursor) := do
  let (hdr, s1) ← takeBytes 12 s
  let ptype := toSigned (leWord (hdr.take 4))
  let category := leWord ((hdr.drop 4).take 4)
  let collide := leWord (hdr.drop 8)
  if category &&& validFlagMask ≠ category then
    throw (.badFlagBits category s.offset)
  if collide &&& validFlagMask ≠ collide then
    throw (.badFlagBits collide s.offset)
  if ptype < 0 ∨ 7 < ptype then
    throw (.badProxyKind ptype s.offset)
  if ptype = 6 then
    let (cnts, s2) ← takeBytes 8 s1
    let vc := toSigned (leWord (cnts.take 4))
    let fc := toSigned (leWord (cnts.drop 4))
    let (verts, s3) ← parseVerts vc.toNat s2
    let ((faces, normals), s4) ← parseFaces fc.toNat s3
    let ((name, rot, loc, scw, material, params), s5) ← parseGeometryHeader s4
    .ok (⟨category, collide, some ⟨verts, faces, normals⟩,
          name, rot, loc, scw, material, params⟩, s5)
  else
    let ((name, rot, loc, scw, material, params), s2) ← parseGeometryHeader s1
    .ok (⟨category, collide, none, name, rot, loc, scw, material, params⟩, s2)

/-- The record loop of `CollisionWorld.load`. -/
def parseRecords : Nat → Cursor → Except DecodeErr (List RawRecord × Cursor)
  | 0, s => .ok ([], s)
  | n + 1, s => do
    let (r, s1) ← parseRecord s
    let (rs, s2) ← parseRecords n s1
    .ok (r :: rs, s2)

/-- `CollisionWorld.load`: `int32` record count then that many records.
A negative count runs the loop zero times, as `range` does in the source;
bytes after the last record are ignored, as in the source. An error means
the Python code raised, so no record list reaches the caller. -/
def collisionWorldLoad (raw : List Nat) : Except DecodeErr (List RawRecord) := do
  let (cnt, s1) ← readI32 ⟨raw, 0⟩
  let (recs, _) ← parseRecords cnt.toNat s1
  .ok recs

/-! ## Spec-side serializer (claim C1)

The encoder below follows the byte layout as the specification states it
(its field order, widths, and the mesh-block-before-header exception), so
that the round-trip theorem `collisionWorldLoad (encodeWorldSpec rs) = ok rs`
checks the decoder read order against the claimed layout. -/

/-- Little-endian bytes of an unsigned 32-bit word. -/
def encodeU32 (n : Nat) : List Nat :=
  [n % 256, n / 256 % 256, n / 65536 % 256, n / 16777216 % 256]

/-- Little-endian two's-complement bytes of a signed 32-bit integer. -/
def encodeI32 (i : Int) : List Nat :=
  encodeU32 (i % (2 ^ 32)).toNat

/-- Three consecutive 32-bit words. -/
def encodeVec (v : Nat × Nat × Nat) : List Nat :=
  encodeU32 v.1 ++ encodeU32 v.2.1 ++ encodeU32 v.2.2

/-- The proxy-kind ordinal of a payload variant (BOX 0 … MESH 6). -/
def paramsOrdinal : RecParams → Int
  | .box .. => 0
  | .ray .. => 1
  | .sphere _ => 2
  | .cylinder .. => 3
  | .tube .. => 4
  | .plane .. => 5
  | .mesh => 6

/-- Kind-specific payload bytes, per the claimed layout: Box 3 floats,
Ray 3, Sphere 1, Cylinder/Tube 2, Plane 4, Mesh none. -/
def encodeParamsPayload : RecParams → List Nat
  | .box l w d => encodeU32 l ++ encodeU32 w ++ encodeU32 d
  | .ray o dir len => encodeU32 o ++ encodeU32 dir ++ encodeU32 len
  | .sphere r => encodeU32 r
  | .cylinder r len => encodeU32 r ++ encodeU32 len
  | .tube r len => encodeU32 r ++ encodeU32 len
  | .plane nx ny nz d => encodeU32 nx ++ encodeU32 ny ++ encodeU32 nz ++ encodeU32 d
  | .mesh => []

/-- Mesh block, per the claimed layout: `int32 vertex_count, int32
face_count`, the vertices, then per face the index triple and the normal. -/
def encodeMeshBlock (m : MeshData) : List Nat :=
  encodeI32 m.vertices.length ++ encodeI32 m.faces.length ++
    m.vertices.flatMap encodeVec ++
    (m.faces.zip m.normals).flatMap (fun p => encodeVec p.1 ++ encodeVec p.2)

/-- One record, laid out as the claim states: kind ordinal, category bits,
collide bits; for Mesh only, the vertex/face block before the shared header;
then name, rotation, location, scale, material, the repeated kind ordinal,
and the kind-specific payload. -/
def encodeRecordSpec (r : RawRecord) : List Nat :=
  encodeI32 (paramsOrdinal r.params) ++ encodeU32 r.category ++ encodeU32 r.collide ++
    (match r.meshData with
      | some m => encodeMeshBlock m
      | none => []) ++
    encodeI32 r.name.length ++ r.name ++
    r.rotation.flatMap encodeU32 ++
    r.location.flatMap encodeU32 ++
    encodeU32 r.scaleWord ++
    encodeI32 r.material.length ++ r.material ++
    encodeI32 (paramsOrdinal r.params) ++
    encodeParamsPayload r.params

/-- A whole stream: `int32 record_count` then the records. -/
def encodeWorldSpec (rs : List RawRecord) : List Nat :=
  encodeI32 rs.length ++ rs.flatMap encodeRecordSpec

/-- A 32-bit word fits. -/
def wordWF (n : Nat) : Prop := n < 2 ^ 32

/-- Vector of three words. -/
def vecWF (v : Nat × Nat × Nat) : Prop := wordWF v.1 ∧ wordWF v.2.1 ∧ wordWF v.2.2

/-- Payload words fit in 32 bits. -/
def paramsWF : RecParams → Prop
  | .box l w d => wordWF l ∧ wordWF w ∧ wordWF d
  | .ray o dir len => wordWF o ∧ wordWF dir ∧ wordWF len
  | .sphere r => wordWF r
  | .cylinder r len => wordWF r ∧ wordWF len
  | .tube r len => wordWF r ∧ wordWF len
  | .plane nx ny nz d => wordWF nx ∧ wordWF ny ∧ wordWF nz ∧ wordWF d
  | .mesh => True

/-- Well-formedness of a mesh block: counts encodable as `int32`, words fit,
one normal per face. -/
structure MeshWF (m : MeshData) : Prop where
  vcount : m.vertices.length < 2 ^ 31
  fcount : m.faces.length < 2 ^ 31
  verts_wf : ∀ v ∈ m.vertices, vecWF v
  faces_wf : ∀ v ∈ m.faces, vecWF v
  normals_wf : ∀ v ∈ m.normals, vecWF v
  same_len : m.normals.length = m.faces.length

/-- Well-formedness of a record with respect to the binary format:
flag words inside the closed `CollisionFlag` bit set, byte and word fields
in range, string lengths encodable, nine rotation entries, three location
entries, and the mesh block present exactly for MESH params. -/
structure RecordWF (r : RawRecord) : Prop where
  category_wf : r.category &&& validFlagMask = r.category
  collide_wf : r.collide &&& validFlagMask = r.collide
  name_bytes : ∀ b ∈ r.name, b < 256
  name_len : r.name.length < 2 ^ 31
  rot_len : r.rotation.length = 9
  rot_wf : ∀ w ∈ r.rotation, wordWF w
  loc_len : r.location.length = 3
  loc_wf : ∀ w ∈ r.location, wordWF w
  scale_wf : wordWF r.scaleWord
  material_bytes : ∀ b ∈ r.material, b < 256
  material_len : r.material.length < 2 ^ 31
  params_wf : paramsWF r.params
  mesh_iff : r.meshData.isSome ↔ r.params = .mesh
  mesh_wf : ∀ m ∈ r.meshData, MeshWF m

/-! ### Round-trip lemmas -/

theorem ok_bind {α β ε : Type} (a : α) (f : α → Except ε β) :
    (Except.ok a : Except ε α) >>= f = f a := rfl

theorem unit_bind {β ε : Type} (f : Unit → Except ε β) :
    (pure () : Except ε Unit) >>= f = f () := rfl

theorem takeBytes_append (l rest : List Nat) (off k : Nat) (h : l.length = k) :
    takeBytes k ⟨l ++ rest, off⟩ = .ok (l, ⟨rest, off + k⟩) := by
  rw [takeBytes]
  simp only [List.length_append]
  rw [if_pos (by omega)]
  rw [List.take_left' h, List.drop_left' h]

theorem leWord_encodeU32 (n : Nat) (h : n < 2 ^ 32) : leWord (encodeU32 n) = n := by
  simp [leWord, encodeU32]
  omega

theorem encodeU32_length (n : Nat) : (encodeU32 n).length = 4 := rfl

theorem encodeI32_length (i : Int) : (encodeI32 i).length = 4 := rfl

theorem readU32_encode (n : Nat) (rest : List Nat) (off : Nat) (h : n < 2 ^ 32) :
    readU32 ⟨encodeU32 n ++ rest, off⟩ = .ok (n, ⟨rest, off + 4⟩) := by
  rw [readU32, takeBytes_append _ _ _ _ (encodeU32_length n), ok_bind]
  simp only []
  rw [leWord_encodeU32 n h]

theorem toSigned_encodeI32 (i : Int) (h1 : -(2 ^ 31) ≤ i) (h2 : i < 2 ^ 31) :
    toSigned (leWord (encodeI32 i)) = i := by
  rw [encodeI32, leWord_encodeU32 _ (by omega)]
  unfold toSigned
  split_ifs <;> omega

theorem readI32_encode (i : Int) (rest : List Nat) (off : Nat)
    (h1 : -(2 ^ 31) ≤ i) (h2 : i < 2 ^ 31) :
    readI32 ⟨encodeI32 i ++ rest, off⟩ = .ok (i, ⟨rest, off + 4⟩) := by
  rw [readI32, takeBytes_append _ _ _ _ (encodeI32_length i), ok_bind]
  simp only []
  rw [toSigned_encodeI32 i h1 h2]

theorem readRaw_exact (l rest : List Nat) (off : Nat) :
    readRaw (l.length : Int) ⟨l ++ rest, off⟩ = (l, ⟨rest, off + l.length⟩) := by
  rw [readRaw, if_neg (by omega)]
  simp only [Int.toNat_natCast, List.length_append]
  rw [min_eq_left (by omega), List.take_left, List.drop_left]

theorem readString_encode (l rest : List Nat) (off : Nat) (h : l.length < 2 ^ 31) :
    readString ⟨encodeI32 (l.length : Int) ++ (l ++ rest), off⟩ =
      .ok (l, ⟨rest, off + 4 + l.length⟩) := by
  rw [readString, readI32_encode _ _ _ (by omega) (by exact_mod_cast h), ok_bind]
  simp only []
  rw [readRaw_exact]

theorem flatMap_encodeU32_length (ws : List Nat) :
    (ws.flatMap encodeU32).length = 4 * ws.length := by
  induction ws with
  | nil => rfl
  | cons w ws ih => simp [List.flatMap_cons, ih, encodeU32]; omega

theorem wordsOf_encode (ws : List Nat) (h : ∀ w ∈ ws, wordWF w) :
    wordsOf (ws.flatMap encodeU32) = ws := by
  induction ws with
  | nil => rfl
  | cons w ws ih =>
      have hw : wordWF w := h w (List.mem_cons_self w ws)
      have : encodeU32 w ++ ws.flatMap encodeU32 =
          (w % 256) :: (w / 256 % 256) :: (w / 65536 % 256) :: (w / 16777216 % 256) ::
            ws.flatMap encodeU32 := rfl
      rw [List.flatMap_cons, this, wordsOf]
      rw [ih (fun x hx => h x (List.mem_cons_of_mem w hx))]
      have : leWord [w % 256, w / 256 % 256, w / 65536 % 256, w / 16777216 % 256] = w :=
        leWord_encodeU32 w hw
      rw [this]

theorem readWords_encode (ws rest : List Nat) (off k : Nat) (hk : ws.length = k)
    (h : ∀ w ∈ ws, wordWF w) :
    readWords k ⟨ws.flatMap encodeU32 ++ rest, off⟩ = .ok (ws, ⟨rest, off + 4 * k⟩) := by
  rw [readWords,
    takeBytes_append _ _ _ _ (by rw [flatMap_encodeU32_length, hk]), ok_bind]
  simp only []
  rw [wordsOf_encode ws h]

theorem readVec_encode (v : Nat × Nat × Nat) (rest : List Nat) (off : Nat) (h : vecWF v) :
    readVec ⟨encodeVec v ++ rest, off⟩ = .ok (v, ⟨rest, off + 12⟩) := by
  obtain ⟨a, b, c⟩ := v
  obtain ⟨ha, hb, hc⟩ := h
  rw [readVec, takeBytes_append _ _ _ _ (by simp [encodeVec, encodeU32]), ok_bind]
  simp only [encodeVec, List.append_assoc]
  have htake4 : (encodeU32 a ++ (encodeU32 b ++ encodeU32 c)).take 4 = encodeU32 a :=
    List.take_left' (encodeU32_length a)
  have hdrop4 : (encodeU32 a ++ (encodeU32 b ++ encodeU32 c)).drop 4 =
      encodeU32 b ++ encodeU32 c := List.drop_left' (encodeU32_length a)
  have hdrop8 : (encodeU32 a ++ (encodeU32 b ++ encodeU32 c)).drop 8 = encodeU32 c := by
    have : (8 : Nat) = 4 + 4 := rfl
    rw [this, ← List.drop_drop, hdrop4, List.drop_left' (encodeU32_length b)]
  rw [htake4, hdrop4, hdrop8, List.take_left' (encodeU32_length b),
    leWord_encodeU32 a ha, leWord_encodeU32 b hb, leWord_encodeU32 c hc]

theorem paramsOrdinal_nonneg (p : RecParams) : 0 ≤ paramsOrdinal p := by
  cases p <;> simp [paramsOrdinal]

theorem paramsOrdinal_le (p : RecParams) : paramsOrdinal p ≤ 6 := by
  cases p <;> simp [paramsOrdinal]

theorem parseParams_encode (p : RecParams) (rest : List Nat) (off : Nat) (h : paramsWF p) :
    ∃ off2, parseParams (paramsOrdinal p) ⟨encodeParamsPayload p ++ rest, off⟩ =
      .ok (p, ⟨rest, off2⟩) := by
  cases p with
  | box l w d =>
      refine ⟨off + 12, ?_⟩
      rw [show paramsOrdinal (.box l w d) = 0 from rfl, parseParams, if_pos rfl,
        show encodeParamsPayload (.box l w d) = encodeVec (l, w, d) from rfl,
        readVec_encode (l, w, d) rest off h, ok_bind]
  | ray o dir len =>
      refine ⟨off + 12, ?_⟩
      rw [show paramsOrdinal (.ray o dir len) = 1 from rfl, parseParams,
        if_neg (by norm_num), if_pos rfl,
        show encodeParamsPayload (.ray o dir len) = encodeVec (o, dir, len) from rfl,
        readVec_encode (o, dir, len) rest off h, ok_bind]
  | sphere r =>
      refine ⟨off + 4, ?_⟩
      rw [show paramsOrdinal (.sphere r) = 2 from rfl, parseParams,
        if_neg (by norm_num), if_neg (by norm_num), if_pos rfl,
        show encodeParamsPayload (.sphere r) = encodeU32 r from rfl,
        readU32_encode r rest off h, ok_bind]
  | cylinder r len =>
      refine ⟨off + 4 + 4, ?_⟩
      rw [show paramsOrdinal (.cylinder r len) = 3 from rfl, parseParams,
        if_neg (by norm_num), if_neg (by norm_num), if_neg (by norm_num), if_pos rfl]
      simp only [encodeParamsPayload, List.append_assoc]
      rw [readU32_encode r _ off h.1, ok_bind]
      simp only []
      rw [readU32_encode len rest _ h.2, ok_bind]
  | tube r len =>
      refine ⟨off + 4 + 4, ?_⟩
      rw [show paramsOrdinal (.tube r len) = 4 from rfl, parseParams,
        if_neg (by norm_num), if_neg (by norm_num), if_neg (by norm_num),
        if_neg (by norm_num), if_pos rfl]
      simp only [encodeParamsPayload, List.append_assoc]
      rw [readU32_encode r _ off h.1, ok_bind]
      simp only []
      rw [readU32_encode len rest _ h.2, ok_bind]
  | plane nx ny nz d =>
      refine ⟨off + 4 * 4, ?_⟩
      rw [show paramsOrdinal (.plane nx ny nz d) = 5 from rfl, parseParams,
        if_neg (by norm_num), if_neg (by norm_num), if_neg (by norm_num),
        if_neg (by norm_num), if_neg (by norm_num), if_pos rfl]
      have hb : encodeParamsPayload (.plane nx ny nz d) ++ rest =
          [nx, ny, nz, d].flatMap encodeU32 ++ rest := by
        simp [encodeParamsPayload, List.flatMap_cons, List.flatMap_nil]
      rw [hb, readWords_encode [nx, ny, nz, d] rest off 4 rfl ?_, ok_bind]
      intro w hw
      obtain ⟨h1, h2, h3, h4⟩ := h
      simp only [List.mem_cons, List.not_mem_nil, or_false] at hw
      rcases hw with rfl | rfl | rfl | rfl <;> assumption
  | mesh =>
      refine ⟨off, ?_⟩
      rw [show paramsOrdinal .mesh = 6 from rfl, parseParams,
        if_neg (by norm_num), if_neg (by norm_num), if_neg (by norm_num),
        if_neg (by norm_num), if_neg (by norm_num), if_neg (by norm_num), if_pos rfl,
        show encodeParamsPayload .mesh = ([] : List Nat) from rfl, List.nil_append]

theorem parseGeometryHeader_encode
    (name rot loc material rest : List Nat) (scw : Nat) (p : RecParams) (off : Nat)
    (hnl : name.length < 2 ^ 31) (hrl : rot.length = 9) (hrw : ∀ w ∈ rot, wordWF w)
    (hll : loc.length = 3) (hlw : ∀ w ∈ loc, wordWF w) (hsw : wordWF scw)
    (hml : material.length < 2 ^ 31) (hp : paramsWF p) :
    ∃ off2, parseGeometryHeader
      ⟨encodeI32 (name.length : Int) ++ (name ++ (rot.flatMap encodeU32 ++
        (loc.flatMap encodeU32 ++ (encodeU32 scw ++ (encodeI32 (material.length : Int) ++
        (material ++ (encodeI32 (paramsOrdinal p) ++ (encodeParamsPayload p ++ rest)))))))),
        off⟩ =
      .ok ((name, rot, loc, scw, material, p), ⟨rest, off2⟩) := by
  obtain ⟨off2, hpp⟩ := parseParams_encode p rest
    (off + 4 + name.length + 4 * 9 + 4 * 3 + 4 + 4 + material.length + 4) hp
  refine ⟨off2, ?_⟩
  rw [parseGeometryHeader, readString_encode name _ _ hnl, ok_bind]
  simp only []
  rw [readWords_encode rot _ _ 9 hrl hrw, ok_bind]
  simp only []
  rw [readWords_encode loc _ _ 3 hll hlw, ok_bind]
  simp only []
  rw [readU32_encode scw _ _ hsw, ok_bind]
  simp only []
  rw [readString_encode material _ _ hml, ok_bind]
  simp only []
  rw [readI32_encode (paramsOrdinal p) _ _
    (le_trans (by norm_num) (paramsOrdinal_nonneg p))
    (lt_of_le_of_lt (paramsOrdinal_le p) (by norm_num)), ok_bind]
  simp only []
  rw [hpp, ok_bind]

theorem parseVerts_encode (vs : List (Nat × Nat × Nat)) (rest : List Nat) (off : Nat)
    (h : ∀ v ∈ vs, vecWF v) :
    ∃ off2, parseVerts vs.length ⟨vs.flatMap encodeVec ++ rest, off⟩ =
      .ok (vs, ⟨rest, off2⟩) := by
  induction vs generalizing off with
  | nil => exact ⟨off, by simp [parseVerts]⟩
  | cons v vs ih =>
      obtain ⟨off2, hih⟩ := ih (off + 12) (fun x hx => h x (List.mem_cons_of_mem v hx))
      refine ⟨off2, ?_⟩
      rw [List.length_cons, parseVerts]
      simp only [List.flatMap_cons, List.append_assoc]
      rw [readVec_encode v _ off (h v (List.mem_cons_self v vs)), ok_bind]
      simp only []
      rw [hih, ok_bind]

theorem parseFaces_encode (fs ns : List (Nat × Nat × Nat)) (rest : List Nat) (off : Nat)
    (hlen : ns.length = fs.length)
    (hf : ∀ v ∈ fs, vecWF v) (hn : ∀ v ∈ ns, vecWF v) :
    ∃ off2, parseFaces fs.length
      ⟨(fs.zip ns).flatMap (fun p => encodeVec p.1 ++ encodeVec p.2) ++ rest, off⟩ =
      .ok ((fs, ns), ⟨rest, off2⟩) := by
  induction fs generalizing ns off with
  | nil =>
      have hns : ns = [] := by
        have : ns.length = 0 := by simpa using hlen
        exact List.eq_nil_of_length_eq_zero this
      exact ⟨off, by simp [hns, parseFaces]⟩
  | cons f fs ih =>
      match ns, hlen with
      | n :: ns, hlen =>
        have hlen' : ns.length = fs.length := by
          simpa using hlen
        obtain ⟨off2, hih⟩ := ih ns (off + 12 + 12) hlen'
          (fun x hx => hf x (List.mem_cons_of_mem f hx))
          (fun x hx => hn x (List.mem_cons_of_mem n hx))
        refine ⟨off2, ?_⟩
        rw [List.length_cons, parseFaces]
        simp only [List.zip_cons_cons, List.flatMap_cons, List.append_assoc]
        rw [readVec_encode f _ off (hf f (List.mem_cons_self f fs)), ok_bind]
        simp only []
        rw [readVec_encode n _ _ (hn n (List.mem_cons_self n ns)), ok_bind]
        simp only []
        rw [hih, ok_bind]

theorem leWord_lt_of_mask (n : Nat) (h : n &&& validFlagMask = n) : wordWF n := by
  have := Nat.and_le_right (n := n) (m := validFlagMask)
  rw [h] at this
  unfold wordWF validFlagMask at *
  omega

theorem parseRecord_encode (r : RawRecord) (rest : List Nat) (off : Nat) (hr : RecordWF r) :
    ∃ off2, parseRecord ⟨encodeRecordSpec r ++ rest, off⟩ = .ok (r, ⟨rest, off2⟩) := by
  obtain ⟨cat, coll, md, nm, rot, loc, scw, mat, p⟩ := r
  obtain ⟨hcat, hcoll, hnmb, hnml, hrl, hrw, hll, hlw, hsw, hmatb, hmatl, hpw, hmi, hmw⟩ := hr
  simp only [encodeRecordSpec, List.append_assoc] at *
  have hcatw : wordWF cat := leWord_lt_of_mask cat hcat
  have hcollw : wordWF coll := leWord_lt_of_mask coll hcoll
  -- the 12-byte <iII> head
  have h12 : ∀ X : List Nat, takeBytes 12
      ⟨encodeI32 (paramsOrdinal p) ++ (encodeU32 cat ++ (encodeU32 coll ++ X)), off⟩ =
      .ok (encodeI32 (paramsOrdinal p) ++ (encodeU32 cat ++ encodeU32 coll),
        ⟨X, off + 12⟩) := by
    intro X
    rw [show encodeI32 (paramsOrdinal p) ++ (encodeU32 cat ++ (encodeU32 coll ++ X)) =
      (encodeI32 (paramsOrdinal p) ++ (encodeU32 cat ++ encodeU32 coll)) ++ X by
        simp [List.append_assoc]]
    exact takeBytes_append _ _ _ _ (by simp [encodeI32, encodeU32])
  have htk4 : (encodeI32 (paramsOrdinal p) ++ (encodeU32 cat ++ encodeU32 coll)).take 4 =
      encodeI32 (paramsOrdinal p) := List.take_left' (encodeI32_length _)
  have hdp4 : (encodeI32 (paramsOrdinal p) ++ (encodeU32 cat ++ encodeU32 coll)).drop 4 =
      encodeU32 cat ++ encodeU32 coll := List.drop_left' (encodeI32_length _)
  have hdp8 : (encodeI32 (paramsOrdinal p) ++ (encodeU32 cat ++ encodeU32 coll)).drop 8 =
      encodeU32 coll := by
    rw [show (8 : Nat) = 4 + 4 from rfl, ← List.drop_drop, hdp4,
      List.drop_left' (encodeU32_length _)]
  have hord : toSigned (leWord (encodeI32 (paramsOrdinal p))) = paramsOrdinal p :=
    toSigned_encodeI32 _ (le_trans (by norm_num) (paramsOrdinal_nonneg p))
      (lt_of_le_of_lt (paramsOrdinal_le p) (by norm_num))
  cases md with
  | none =>
      have hpne : p ≠ .mesh := by
        intro hpm
        simp [hpm] at hmi
      obtain ⟨off2, hH⟩ := parseGeometryHeader_encode nm rot loc mat rest scw p (off + 12)
        hnml hrl hrw hll hlw hsw hmatl hpw
      refine ⟨off2, ?_⟩
      rw [parseRecord]
      simp only [List.nil_append]
      rw [h12, ok_bind]
      simp only [htk4, hdp4, hdp8, hord, List.take_left' (encodeU32_length cat),
        leWord_encodeU32 cat hcatw, leWord_encodeU32 coll hcollw]
      rw [if_neg (by simp [hcat]), unit_bind, if_neg (by simp [hcoll]), unit_bind,
        if_neg (by
          push_neg
          exact ⟨paramsOrdinal_nonneg p, le_trans (paramsOrdinal_le p) (by norm_num)⟩),
        unit_bind,
        if_neg (by cases p <;> simp_all [paramsOrdinal]), hH, ok_bind]
  | some m =>
      have hpm : p = .mesh := by simpa using hmi
      subst hpm
      obtain ⟨hvc, hfc, hvw, hfw, hnw, hsl⟩ := hmw m rfl
      obtain ⟨mv, mf, mn⟩ := m
      simp only at hvc hfc hvw hfw hnw hsl
      obtain ⟨offV, hV⟩ := parseVerts_encode mv _ (off + 12 + 8) hvw
      obtain ⟨offF, hF⟩ := parseFaces_encode mf mn _ offV hsl hfw hnw
      obtain ⟨off2, hH⟩ := parseGeometryHeader_encode nm rot loc mat rest scw .mesh offF
        hnml hrl hrw hll hlw hsw hmatl hpw
      refine ⟨off2, ?_⟩
      rw [parseRecord]
      simp only [encodeMeshBlock, List.append_assoc]
      rw [h12, ok_bind]
      simp only [htk4, hdp4, hdp8, hord, List.take_left' (encodeU32_length cat),
        leWord_encodeU32 cat hcatw, leWord_encodeU32 coll hcollw]
      rw [if_neg (by simp [hcat]), unit_bind, if_neg (by simp [hcoll]), unit_bind,
        if_neg (by norm_num [paramsOrdinal]), unit_bind,
        if_pos (show paramsOrdinal .mesh = 6 from rfl)]
      -- the 8-byte vertex/face count head
      have h8 : ∀ X : List Nat, encodeI32 (mv.length : Int) ++
          (encodeI32 (mf.length : Int) ++ X) =
          (encodeI32 (mv.length : Int) ++ encodeI32 (mf.length : Int)) ++ X := by
        intro X
        simp [List.append_assoc]
      rw [h8, takeBytes_append _ _ _ _ (by simp [encodeI32, encodeU32]), ok_bind]
      simp only [List.take_left' (encodeI32_length _), List.drop_left' (encodeI32_length _)]
      rw [toSigned_encodeI32 _ (by omega) (by exact_mod_cast hvc),
        toSigned_encodeI32 _ (by omega) (by exact_mod_cast hfc)]
      simp only [Int.toNat_natCast]
      rw [hV, ok_bind]
      simp only []
      rw [hF, ok_bind]
      simp only []
      rw [hH, ok_bind]

theorem parseRecords_encode (rs : List RawRecord) (rest : List Nat) (off : Nat)
    (h : ∀ r ∈ rs, RecordWF r) :
    ∃ off2, parseRecords rs.length ⟨rs.flatMap encodeRecordSpec ++ rest, off⟩ =
      .ok (rs, ⟨rest, off2⟩) := by
  induction rs generalizing off with
  | nil => exact ⟨off, by simp [parseRecords]⟩
  | cons r rs ih =>
      obtain ⟨off1, hrec⟩ := parseRecord_encode r (rs.flatMap encodeRecordSpec ++ rest) off
        (h r (List.mem_cons_self r rs))
      obtain ⟨off2, hih⟩ := ih off1 (fun x hx => h x (List.mem_cons_of_mem r hx))
      refine ⟨off2, ?_⟩
      rw [List.length_cons, parseRecords]
      simp only [List.flatMap_cons, List.append_assoc]
      rw [hrec, ok_bind]
      simp only []
      rw [hih, ok_bind]

/-- C1: For every well-formed input byte stream, decode reads an int32 record
count and then, per record, int32 proxy_kind_ordinal, uint32 category_bits,
uint32 collide_bits, followed by the shared geometry header (length-prefixed
name, nine float32 rotation entries row-major, three float32 location, one
float32 scale, length-prefixed material, a repeated int32 proxy kind) and then
the kind-specific payload (Box 3 floats, Ray 3 floats, Sphere 1 float,
Cylinder/Tube 2 floats, Plane 4 floats); for Mesh records only, the int32
vertex_count/face_count block with vertices and per-face index-plus-normal
data is read before the shared geometry header. Formalised as a round-trip:
`encodeWorldSpec` lays bytes out exactly in the claimed order, and
`collisionWorldLoad` (the decoder translated from `CollisionWorld.load`)
recovers every well-formed record list from that layout. -/
theorem decode_reads_claimed_layout (rs : List RawRecord)
    (hlen : rs.length < 2 ^ 31) (h : ∀ r ∈ rs, RecordWF r) :
    collisionWorldLoad (encodeWorldSpec rs) = .ok rs := by
  obtain ⟨off2, hrs⟩ := parseRecords_encode rs [] (0 + 4) h
  rw [List.append_nil] at hrs
  rw [collisionWorldLoad, encodeWorldSpec,
    readI32_encode _ _ _ (by omega) (by exact_mod_cast hlen), ok_bind]
  simp only [Int.toNat_natCast]
  rw [hrs, ok_bind]

/-- A concrete well-formed one-record stream: a 100 by 100 by 50 box at the
origin with WALKABLE (bit 1) category and collide bits, identity-free fields
kept as raw words. -/
def sampleBoxRecord : RawRecord :=
  ⟨2, 2, none, [], [0, 0, 0, 0, 0, 0, 0, 0, 0], [0, 0, 0], 1065353216, [],
    .box 1120403456 1120403456 1112014848⟩

theorem sampleBoxRecord_wf : RecordWF sampleBoxRecord := by
  refine ⟨rfl, rfl, ?_, ?_, rfl, ?_, rfl, ?_, ?_, ?_, ?_, ?_, ?_, ?_⟩ <;>
    simp [sampleBoxRecord, wordWF, paramsWF, vecWF]

/-- Witness for C1 at a concrete input. -/
theorem decode_reads_claimed_layout_witness :
    ([sampleBoxRecord].length < 2 ^ 31 ∧ (∀ r ∈ [sampleBoxRecord], RecordWF r)) ∧
      collisionWorldLoad (encodeWorldSpec [sampleBoxRecord]) = .ok [sampleBoxRecord] := by
  have hwf : ∀ r ∈ [sampleBoxRecord], RecordWF r := by
    intro r hr
    simp only [List.mem_singleton] at hr
    subst hr
    exact sampleBoxRecord_wf
  exact ⟨⟨by norm_num, hwf⟩,
    decode_reads_claimed_layout [sampleBoxRecord] (by norm_num) hwf⟩

/-! ### Error behaviour of the decoder (claim C2) -/

theorem error_bind {α β ε : Type} (e : ε) (f : α → Except ε β) :
    (Except.error e : Except ε α) >>= f = .error e := rfl

theorem except_bind_ok {ε α β : Type} {x : Except ε α} {f : α → Except ε β} {b : β} :
    x >>= f = .ok b ↔ ∃ a, x = .ok a ∧ f a = .ok b := by
  cases x with
  | error e =>
      rw [error_bind]
      simp
  | ok a =>
      rw [ok_bind]
      simp

theorem throw_bind {ε α β : Type} (e : ε) (f : α → Except ε β) :
    (throw e : Except ε α) >>= f = .error e := rfl

/-- Success of one record parse forces both flag words inside the closed
`CollisionFlag` bit set (the decoder never masks or drops unknown bits: it
raises instead). -/
theorem parseRecord_flags_sound {s s' : Cursor} {r : RawRecord}
    (H : parseRecord s = .ok (r, s')) :
    r.category &&& validFlagMask = r.category ∧
      r.collide &&& validFlagMask = r.collide := by
  rw [parseRecord] at H
  rw [except_bind_ok] at H
  obtain ⟨⟨hdr, s1⟩, _, H⟩ := H
  simp only [] at H
  split at H
  · rw [throw_bind] at H
    exact Except.noConfusion H
  next hcatok =>
  rw [unit_bind] at H
  split at H
  · rw [throw_bind] at H
    exact Except.noConfusion H
  next hcollok =>
  rw [unit_bind] at H
  split at H
  · rw [throw_bind] at H
    exact Except.noConfusion H
  next =>
  rw [unit_bind] at H
  push_neg at hcatok hcollok
  split at H
  · rw [except_bind_ok] at H
    obtain ⟨⟨cnts, s2⟩, _, H⟩ := H
    rw [except_bind_ok] at H
    obtain ⟨⟨verts, s3⟩, _, H⟩ := H
    rw [except_bind_ok] at H
    obtain ⟨⟨⟨faces, normals⟩, s4⟩, _, H⟩ := H
    rw [except_bind_ok] at H
    obtain ⟨⟨⟨name, rot, loc, scw, material, params⟩, s5⟩, _, H⟩ := H
    simp only [Except.ok.injEq, Prod.mk.injEq] at H
    obtain ⟨hr, _⟩ := H
    subst hr
    exact ⟨hcatok, hcollok⟩
  · rw [except_bind_ok] at H
    obtain ⟨⟨⟨name, rot, loc, scw, material, params⟩, s2⟩, _, H⟩ := H
    simp only [Except.ok.injEq, Prod.mk.injEq] at H
    obtain ⟨hr, _⟩ := H
    subst hr
    exact ⟨hcatok, hcollok⟩

/-- Success of a record-loop parse forces the flag soundness on every record. -/
theorem parseRecords_flags_sound {n : Nat} {s s' : Cursor} {rs : List RawRecord}
    (H : parseRecords n s = .ok (rs, s')) :
    ∀ r ∈ rs, r.category &&& validFlagMask = r.category ∧
      r.collide &&& validFlagMask = r.collide := by
  induction n generalizing s s' rs with
  | zero =>
      rw [parseRecords] at H
      simp only [Except.ok.injEq, Prod.mk.injEq] at H
      obtain ⟨hr, _⟩ := H
      subst hr
      intro r hr
      cases hr
  | succ n ih =>
      rw [parseRecords] at H
      rw [except_bind_ok] at H
      obtain ⟨⟨r0, s1⟩, h0, H⟩ := H
      simp only [] at H
      rw [except_bind_ok] at H
      obtain ⟨⟨rs1, s2⟩, h1, H⟩ := H
      simp only [Except.ok.injEq, Prod.mk.injEq] at H
      obtain ⟨hr, _⟩ := H
      subst hr
      intro r hr
      rcases List.mem_cons.mp hr with rfl | hmem
      · exact parseRecord_flags_sound h0
      · exact ih h1 r hmem

/-- A record whose category word has a bit outside the closed flag set makes
the record parse raise, exactly as `CollisionFlag(category_bits)` does. -/
theorem parseRecord_badFlags (k : Int) (cat coll : Nat) (X : List Nat) (off : Nat)
    (hcat : cat < 2 ^ 32) (hbad : cat &&& validFlagMask ≠ cat) :
    parseRecord ⟨encodeI32 k ++ (encodeU32 cat ++ (encodeU32 coll ++ X)), off⟩ =
      .error (.badFlagBits cat off) := by
  rw [parseRecord]
  rw [show encodeI32 k ++ (encodeU32 cat ++ (encodeU32 coll ++ X)) =
    (encodeI32 k ++ (encodeU32 cat ++ encodeU32 coll)) ++ X by simp [List.append_assoc]]
  rw [takeBytes_append _ _ _ _ (by simp [encodeI32, encodeU32]), ok_bind]
  simp only [List.take_left' (encodeI32_length _), List.drop_left' (encodeI32_length _),
    List.take_left' (encodeU32_length _), leWord_encodeU32 cat hcat]
  rw [if_pos hbad]
  rfl

/-- A record whose leading proxy-kind ordinal is outside 0..7 makes the
record parse raise, exactly as `ProxyType(geometry_type)` does. -/
theorem parseRecord_badKind (k : Int) (cat coll : Nat) (X : List Nat) (off : Nat)
    (hk1 : -(2 ^ 31) ≤ k) (hk2 : k < 2 ^ 31) (hk : k < 0 ∨ 7 < k)
    (hcat : cat &&& validFlagMask = cat) (hcoll : coll &&& validFlagMask = coll) :
    parseRecord ⟨encodeI32 k ++ (encodeU32 cat ++ (encodeU32 coll ++ X)), off⟩ =
      .error (.badProxyKind k off) := by
  have hcatw : cat < 2 ^ 32 := leWord_lt_of_mask cat hcat
  have hcollw : coll < 2 ^ 32 := leWord_lt_of_mask coll hcoll
  rw [parseRecord]
  rw [show encodeI32 k ++ (encodeU32 cat ++ (encodeU32 coll ++ X)) =
    (encodeI32 k ++ (encodeU32 cat ++ encodeU32 coll)) ++ X by simp [List.append_assoc]]
  rw [takeBytes_append _ _ _ _ (by simp [encodeI32, encodeU32]), ok_bind]
  have hdp8 : (encodeI32 k ++ (encodeU32 cat ++ encodeU32 coll)).drop 8 = encodeU32 coll := by
    rw [show (8 : Nat) = 4 + 4 from rfl, ← List.drop_drop,
      List.drop_left' (encodeI32_length _), List.drop_left' (encodeU32_length _)]
  simp only [List.take_left' (encodeI32_length _), List.drop_left' (encodeI32_length _),
    List.take_left' (encodeU32_length _), hdp8,
    leWord_encodeU32 cat hcatw, leWord_encodeU32 coll hcollw,
    toSigned_encodeI32 k hk1 hk2]
  rw [if_neg (by simp [hcat]), unit_bind, if_neg (by simp [hcoll]), unit_bind,
    if_pos hk]
  rfl

/-- Projection of a decode result onto a truncation error and its offset. -/
def truncationOffset : Except DecodeErr (List RawRecord) → Option Nat
  | .error (.truncated off) => some off
  | _ => none

/-- The 92-byte well-formed stream of the sample box record. -/
def sampleStream : List Nat := encodeWorldSpec [sampleBoxRecord]

/-- Otherwise well-formed bytes whose single record announces the unknown
proxy-kind ordinal 99. -/
def streamUnknownKind : List Nat :=
  encodeI32 1 ++ (encodeI32 99 ++ (encodeU32 2 ++ (encodeU32 2 ++ [])))

/-- Otherwise well-formed bytes whose single record carries category bits 4,
a bit outside the closed `CollisionFlag` set. -/
def streamUnknownFlag : List Nat :=
  encodeI32 1 ++ (encodeI32 0 ++ (encodeU32 4 ++ (encodeU32 2 ++ [])))

/-- Boolean check that a strict prefix of the sample stream decodes to a
truncation error whose carried offset is at most the prefix length. -/
def prefixTruncOk (m : Nat) : Bool :=
  match truncationOffset (collisionWorldLoad (sampleStream.take m)) with
  | some off => Nat.ble off m
  | none => false

/-- C2: decode fails with a FormatError on every malformed input — a
truncated stream (the error carrying the byte offset), an unrecognized
proxy_kind_ordinal, or category_bits/collide_bits containing any bit outside
the known closed flag set (unknown bits are never masked or silently
ignored) — and a failed decode returns zero records, never a partial record
list. Formalised as: (1) whenever decode succeeds, every returned record's
flag words already lie inside the closed bit set, so an unknown bit can
never survive a successful decode; (2) a record head with a recognised-flag
pair but a proxy-kind ordinal outside 0..7 always makes the record parse
raise; (3) a record head whose category word has a bit outside the closed
set always makes the record parse raise; (4) the concrete scenario-D stream
with ordinal 99 fails with the kind error and hence returns no records at
all (an `Except.error` carries no record list); (5) the same for an unknown
flag bit 4; (6) every strict prefix of the 92-byte well-formed sample stream
fails with a truncation error carrying a byte offset within the prefix. -/
theorem decode_fails_on_malformed :
    (∀ (raw : List Nat) (recs : List RawRecord), collisionWorldLoad raw = .ok recs →
        ∀ r ∈ recs, r.category &&& validFlagMask = r.category ∧
          r.collide &&& validFlagMask = r.collide) ∧
    (∀ (k : Int) (cat coll : Nat) (X : List Nat) (off : Nat),
        -(2 ^ 31) ≤ k → k < 2 ^ 31 → (k < 0 ∨ 7 < k) →
        cat &&& validFlagMask = cat → coll &&& validFlagMask = coll →
        parseRecord ⟨encodeI32 k ++ (encodeU32 cat ++ (encodeU32 coll ++ X)), off⟩ =
          .error (.badProxyKind k off)) ∧
    (∀ (k : Int) (cat coll : Nat) (X : List Nat) (off : Nat),
        cat < 2 ^ 32 → cat &&& validFlagMask ≠ cat →
        parseRecord ⟨encodeI32 k ++ (encodeU32 cat ++ (encodeU32 coll ++ X)), off⟩ =
          .error (.badFlagBits cat off)) ∧
    collisionWorldLoad streamUnknownKind = .error (.badProxyKind 99 4) ∧
    collisionWorldLoad streamUnknownFlag = .error (.badFlagBits 4 4) ∧
    (∀ m, m < 92 → ∃ off, off ≤ m ∧
        truncationOffset (collisionWorldLoad (sampleStream.take m)) = some off) := by
  refine ⟨?_, ?_, ?_, ?_, ?_, ?_⟩
  · intro raw recs H r hr
    rw [collisionWorldLoad, except_bind_ok] at H
    obtain ⟨⟨cnt, s1⟩, _, H⟩ := H
    rw [except_bind_ok] at H
    obtain ⟨⟨rs, s2⟩, hrs, H⟩ := H
    simp only [Except.ok.injEq] at H
    subst H
    exact parseRecords_flags_sound hrs r hr
  · intro k cat coll X off hk1 hk2 hk hcat hcoll
    exact parseRecord_badKind k cat coll X off hk1 hk2 hk hcat hcoll
  · intro k cat coll X off hcat hbad
    exact parseRecord_badFlags k cat coll X off hcat hbad
  · rfl
  · rfl
  · have hall : ∀ m, m < 92 → prefixTruncOk m = true := by decide
    intro m hm
    have hb := hall m hm
    unfold prefixTruncOk at hb
    cases h : truncationOffset (collisionWorldLoad (sampleStream.take m)) with
    | none => rw [h] at hb; cases hb
    | some off =>
        rw [h] at hb
        exact ⟨off, Nat.le_of_ble_eq_true hb, rfl⟩

/-- Witness for C2: its soundness component applied at the concrete sample
stream, whose decode success is discharged by evaluation. -/
theorem decode_fails_on_malformed_witness :
    sampleBoxRecord.category &&& validFlagMask = sampleBoxRecord.category ∧
      sampleBoxRecord.collide &&& validFlagMask = sampleBoxRecord.collide :=
  decode_fails_on_malformed.1 sampleStream [sampleBoxRecord] rfl
    sampleBoxRecord (List.mem_singleton.mpr rfl)

/-! ## Geometry layer (WorldsCollide.py)

Python float values are modelled as exact rationals: every IEEE double is a
rational number, and no claim in this layer depends on rounding. -/

/-- Point in 3-space. -/
abbrev Vec3 := ℚ × ℚ × ℚ

/-- Point in the slicing plane. -/
abbrev Pt2 := ℚ × ℚ

/-- Row-major 3x3 rotation matrix, as the 9-tuple the decoder produces. -/
structure Mat3 where
  (a b c d e f g h i : ℚ)
  deriving DecidableEq

/-- The identity rotation. -/
def idMat : Mat3 := ⟨1, 0, 0, 0, 1, 0, 0, 0, 1⟩

/-- Modelled from the spec: `toCubeVertices` from the `collision_math` module,
which is imported by WorldsCollide.py but is not under src/ — the 8 corner
vertices of a canonical unit cube scaled by (length, width, depth). -/
def toCubeVertices (dims : Vec3) : List Vec3 :=
  [(-dims.1 / 2, -dims.2.1 / 2, -dims.2.2 / 2),
   (dims.1 / 2, -dims.2.1 / 2, -dims.2.2 / 2),
   (-dims.1 / 2, dims.2.1 / 2, -dims.2.2 / 2),
   (dims.1 / 2, dims.2.1 / 2, -dims.2.2 / 2),
   (-dims.1 / 2, -dims.2.1 / 2, dims.2.2 / 2),
   (dims.1 / 2, -dims.2.1 / 2, dims.2.2 / 2),
   (-dims.1 / 2, dims.2.1 / 2, dims.2.2 / 2),
   (dims.1 / 2, dims.2.1 / 2, dims.2.2 / 2)]

/-- Application of a row-major rotation to a vector. -/
def applyRot (R : Mat3) (v : Vec3) : Vec3 :=
  (R.a * v.1 + R.b * v.2.1 + R.c * v.2.2,
   R.d * v.1 + R.e * v.2.1 + R.f * v.2.2,
   R.g * v.1 + R.h * v.2.1 + R.i * v.2.2)

/-- Modelled from the spec: `transformCube` from the `collision_math` module,
which is imported by WorldsCollide.py but is not under src/ — rotation
(row-major 3x3) plus translation applied to each vertex. -/
def transformCube (pts : List Vec3) (loc : Vec3) (R : Mat3) : List Vec3 :=
  pts.map (fun v =>
    let w := applyRot R v
    (w.1 + loc.1, w.2.1 + loc.2.1, w.2.2 + loc.2.2))

/-- Shape parameters of a decoded object, with real-valued fields as the
geometry pass sees them. -/
inductive ObjParams where
  | box (l w d : ℚ)
  | ray (o dir len : ℚ)
  | sphere (r : ℚ)
  | cylinder (r len : ℚ)
  | tube (r len : ℚ)
  | plane (nx ny nz dist : ℚ)
  | mesh
  deriving DecidableEq

/-- One decoded object as `build_collision_shapes` consumes it. -/
structure GeomObj where
  rotation : Mat3
  location : Vec3
  scale : ℚ
  params : ObjParams
  vertices : List Vec3 := []

/-- A 2D shape produced by the slicer: `hullOfPts pts` stands for shapely
`Polygon(pts).convex_hull`, and `disc c r` for shapely `Point(c).buffer(r)`
(whose polygon realisation is `discRing` below). -/
inductive Shape2 where
  | hullOfPts (pts : List Pt2)
  | disc (center : Pt2) (r : ℚ)
  deriving DecidableEq

/-- One iteration of the `build_collision_shapes` loop (WorldsCollide.py
lines 1283-1314): Box, Sphere and Cylinder produce at most one shape; Ray,
Tube, Plane and Mesh kinds produce none. -/
def sliceObj (obj : GeomObj) (zSlice : ℚ) : List Shape2 :=
  match obj.params with
  | .box l w d =>
      if obj.location.2.2 - d / 2 ≤ zSlice ∧ zSlice ≤ obj.location.2.2 + d / 2 then
        let pts2d := (transformCube (toCubeVertices (l, w, d)) obj.location obj.rotation).map
          (fun q => (q.1, q.2.1))
        if 3 ≤ pts2d.length then [.hullOfPts pts2d] else []
      else []
  | .sphere r =>
      let rr := r * obj.scale
      if 0 < rr ∧ |zSlice - obj.location.2.2| ≤ rr then
        [.disc (obj.location.1, obj.location.2.1) rr]
      else []
  | .cylinder r len =>
      let scaledHalfLength := len / 2 * obj.scale
      let scaledRadius := r * obj.scale * (1/8)
      if 0 < scaledRadius ∧ obj.location.2.2 - scaledHalfLength ≤ zSlice ∧
          zSlice ≤ obj.location.2.2 + scaledHalfLength then
        [.disc (obj.location.1, obj.location.2.1) scaledRadius]
      else []
  | _ => []

/-- `build_collision_shapes`. -/
def build_collision_shapes (objs : List GeomObj) (zSlice : ℚ) : List Shape2 :=
  objs.flatMap (fun o => sliceObj o zSlice)

/-- C4: For every Box record, slicing at height z returns the convex hull of
the box's rotated-and-translated corner footprint projected to 2D exactly
when z falls within the box's world Z-extent, and returns nothing when z is
outside [location.z - depth/2, location.z + depth/2] (the world Z-extent
under identity rotation). Formalised: the slicer produces the hull of the
projected transformed corners exactly when z lies in
[location.z - depth/2, location.z + depth/2], and under identity rotation
the transformed corners' Z coordinates are exactly location.z ± depth/2, so
that interval is the world Z-extent. -/
theorem box_slice_gating (obj : GeomObj) (zSlice l w d : ℚ)
    (hp : obj.params = .box l w d) :
    ((obj.location.2.2 - d / 2 ≤ zSlice ∧ zSlice ≤ obj.location.2.2 + d / 2) →
      sliceObj obj zSlice =
        [.hullOfPts ((transformCube (toCubeVertices (l, w, d)) obj.location
          obj.rotation).map (fun q => (q.1, q.2.1)))]) ∧
    (¬(obj.location.2.2 - d / 2 ≤ zSlice ∧ zSlice ≤ obj.location.2.2 + d / 2) →
      sliceObj obj zSlice = []) ∧
    ((transformCube (toCubeVertices (l, w, d)) obj.location idMat).map (·.2.2) =
      [obj.location.2.2 - d / 2, obj.location.2.2 - d / 2,
       obj.location.2.2 - d / 2, obj.location.2.2 - d / 2,
       obj.location.2.2 + d / 2, obj.location.2.2 + d / 2,
       obj.location.2.2 + d / 2, obj.location.2.2 + d / 2]) := by
  refine ⟨?_, ?_, ?_⟩
  · intro hz
    simp only [sliceObj, hp, if_pos hz]
    rw [if_pos (by simp [transformCube, toCubeVertices])]
  · intro hz
    simp only [sliceObj, hp, if_neg hz]
  · simp only [transformCube, toCubeVertices, applyRot, idMat, List.map_cons, List.map_nil,
      List.cons.injEq, and_true]
    norm_num
    constructor <;> ring

/-- The scenario-A box: dimensions (100, 100, 50) at the origin, identity
rotation. -/
def scenarioBox : GeomObj := ⟨idMat, (0, 0, 0), 1, .box 100 100 50, []⟩

/-- Witness for C4 at the scenario-A box, sliced at z = 0. -/
theorem box_slice_gating_witness :
    ((scenarioBox.location.2.2 - 50 / 2 ≤ (0 : ℚ) ∧
        (0 : ℚ) ≤ scenarioBox.location.2.2 + 50 / 2) →
      sliceObj scenarioBox 0 =
        [.hullOfPts ((transformCube (toCubeVertices (100, 100, 50)) scenarioBox.location
          scenarioBox.rotation).map (fun q => (q.1, q.2.1)))]) ∧
    (¬(scenarioBox.location.2.2 - 50 / 2 ≤ (0 : ℚ) ∧
        (0 : ℚ) ≤ scenarioBox.location.2.2 + 50 / 2) →
      sliceObj scenarioBox 0 = []) ∧
    ((transformCube (toCubeVertices (100, 100, 50)) scenarioBox.location idMat).map
        (·.2.2) =
      [scenarioBox.location.2.2 - 50 / 2, scenarioBox.location.2.2 - 50 / 2,
       scenarioBox.location.2.2 - 50 / 2, scenarioBox.location.2.2 - 50 / 2,
       scenarioBox.location.2.2 + 50 / 2, scenarioBox.location.2.2 + 50 / 2,
       scenarioBox.location.2.2 + 50 / 2, scenarioBox.location.2.2 + 50 / 2]) :=
  box_slice_gating scenarioBox 0 100 100 50 rfl

/-! ## Safe-point computation (claims C5, C6)

`_perform_single_teleport_attempt` delegates all plane geometry to shapely;
those library calls are abstract operation parameters here, so the theorems
hold for every behaviour of the geometry library. -/

/-- The shapely operations used by `_perform_single_teleport_attempt`. -/
structure GeoOps (G : Type) where
  isEmpty : G → Bool
  negBuffer : G → ℚ → G
  discAt : Pt2 → ℚ → G
  inter : G → G → G
  centroid : G → Pt2
  nearestIn : Pt2 → G → Pt2

/-- The candidate-point computation of `_perform_single_teleport_attempt`
(WorldsCollide.py lines 1052-1102), up to the teleport call: empty-region
checks, the erosion `free_area.buffer(-player_radius)`, the progressive
search distance `(offset - 1) * 300`, nearest-point / disc-intersection
centroid selection, the bounding-box clamp, and the Z coordinate carried
from the target. `none` models the `return False` early exits. -/
def performSafePoint {G : Type} (ops : GeoOps G) (freeArea : G)
    (target : Vec3) (bounds : ℚ × ℚ × ℚ × ℚ)
    (basePlayerRadius playerRadiusOffset : ℚ) : Option Vec3 :=
  let playerRadius := basePlayerRadius * playerRadiusOffset
  if ops.isEmpty freeArea then none
  else
    let safeRegion := ops.negBuffer freeArea playerRadius
    if ops.isEmpty safeRegion then none
    else
      let searchDistance := (playerRadiusOffset - 1) * 300
      let targetPoint : Pt2 := (target.1, target.2.1)
      let candidate : Pt2 :=
        if searchDistance ≤ 0 then
          ops.nearestIn targetPoint safeRegion
        else
          let targetArea := ops.discAt targetPoint searchDistance
          let sect := ops.inter targetArea safeRegion
          if ops.isEmpty sect = false then ops.centroid sect
          else ops.nearestIn targetPoint safeRegion
      let cx := min (max candidate.1 bounds.1) bounds.2.2.1
      let cy := min (max candidate.2 bounds.2.1) bounds.2.2.2
      some (cx, cy, target.2.2)

/-- C5: Every point returned by the safe-point computation is clamped into
the walkable bounding box [minX,maxX] x [minY,maxY] — it is never returned
outside that box for any obstacle/target configuration — and its Z
coordinate is carried through unchanged from the target. Quantified over
every behaviour of the geometry library, so it covers every configuration. -/
theorem safe_point_clamped {G : Type} (ops : GeoOps G) (freeArea : G)
    (target : Vec3) (minx miny maxx maxy : ℚ) (br off : ℚ) (p : Vec3)
    (hx : minx ≤ maxx) (hy : miny ≤ maxy)
    (hp : performSafePoint ops freeArea target (minx, miny, maxx, maxy) br off = some p) :
    minx ≤ p.1 ∧ p.1 ≤ maxx ∧ miny ≤ p.2.1 ∧ p.2.1 ≤ maxy ∧ p.2.2 = target.2.2 := by
  simp only [performSafePoint] at hp
  split at hp
  · exact absurd hp (by simp)
  split at hp
  · exact absurd hp (by simp)
  simp only [Option.some.injEq] at hp
  subst hp
  refine ⟨le_min (le_max_right _ _) hx, min_le_right _ _,
    le_min (le_max_right _ _) hy, min_le_right _ _, rfl⟩

/-- Trivial geometry instance used to instantiate the clamp theorem. -/
def unitOps : GeoOps Unit :=
  ⟨fun _ => false, fun _ _ => (), fun _ _ => (), fun _ _ => (),
    fun _ => (7, 9), fun q _ => q⟩

/-- Witness for C5 at a concrete configuration. -/
theorem safe_point_clamped_witness :
    (0 : ℚ) ≤ (1 : ℚ) ∧ (1 : ℚ) ≤ (1 : ℚ) ∧ (0 : ℚ) ≤ (1 : ℚ) ∧ (1 : ℚ) ≤ (1 : ℚ) ∧
      ((1 : ℚ), (1 : ℚ), (5 : ℚ)).2.2 = ((2 : ℚ), (3 : ℚ), (5 : ℚ)).2.2 :=
  safe_point_clamped unitOps () ((2 : ℚ), (3 : ℚ), (5 : ℚ)) 0 0 1 1 10 1
    ((1 : ℚ), (1 : ℚ), (5 : ℚ)) (by norm_num) (by norm_num) (by
      simp only [performSafePoint]
      norm_num [unitOps])

/-- C6: On a retry with positive search distance, the safe-point computation
intersects a disc of radius search_distance centered on the target with the
radius-eroded free region and returns that intersection's centroid; when that
intersection is empty, it falls back to the nearest point of the eroded free
region to the target. Both returned points then pass through the C5 bounding
clamp and pick up the target's Z, stated explicitly here. -/
theorem retry_search_selection {G : Type} (ops : GeoOps G) (freeArea : G)
    (target : Vec3) (minx miny maxx maxy : ℚ) (br off : ℚ)
    (hfree : ops.isEmpty freeArea = false)
    (hsafe : ops.isEmpty (ops.negBuffer freeArea (br * off)) = false)
    (hsd : 0 < (off - 1) * 300) :
    (ops.isEmpty (ops.inter (ops.discAt (target.1, target.2.1) ((off - 1) * 300))
        (ops.negBuffer freeArea (br * off))) = false →
      performSafePoint ops freeArea target (minx, miny, maxx, maxy) br off =
        some (min (max (ops.centroid (ops.inter
            (ops.discAt (target.1, target.2.1) ((off - 1) * 300))
            (ops.negBuffer freeArea (br * off)))).1 minx) maxx,
          min (max (ops.centroid (ops.inter
            (ops.discAt (target.1, target.2.1) ((off - 1) * 300))
            (ops.negBuffer freeArea (br * off)))).2 miny) maxy,
          target.2.2)) ∧
    (ops.isEmpty (ops.inter (ops.discAt (target.1, target.2.1) ((off - 1) * 300))
        (ops.negBuffer freeArea (br * off))) = true →
      performSafePoint ops freeArea target (minx, miny, maxx, maxy) br off =
        some (min (max (ops.nearestIn (target.1, target.2.1)
            (ops.negBuffer freeArea (br * off))).1 minx) maxx,
          min (max (ops.nearestIn (target.1, target.2.1)
            (ops.negBuffer freeArea (br * off))).2 miny) maxy,
          target.2.2)) := by
  constructor
  · intro hsect
    simp only [performSafePoint]
    rw [if_neg (by simp [hfree]), if_neg (by simp [hsafe]),
      if_neg (by push_neg; exact hsd), if_pos hsect]
  · intro hsect
    simp only [performSafePoint]
    rw [if_neg (by simp [hfree]), if_neg (by simp [hsafe]),
      if_neg (by push_neg; exact hsd), if_neg (by simp [hsect])]

/-- Geometry instance whose intersection is nonempty, for the C6 witness. -/
def pointOps : GeoOps Pt2 :=
  ⟨fun _ => false, fun g _ => g, fun c _ => c, fun _ g => g,
    fun g => g, fun q _ => q⟩

/-- Witness for C6 at a concrete configuration: base radius 10, offset 2, so
search distance 300; the centroid branch is taken and its result, clamped,
is returned with the target's Z. -/
theorem retry_search_selection_witness :
    (pointOps.isEmpty (pointOps.inter
        (pointOps.discAt ((2 : ℚ), (3 : ℚ)) ((2 - 1) * 300))
        (pointOps.negBuffer (5, 6) (10 * 2))) = false →
      performSafePoint pointOps (5, 6) ((2 : ℚ), (3 : ℚ), (4 : ℚ)) (0, 0, 100, 100) 10 2 =
        some (min (max (pointOps.centroid (pointOps.inter
            (pointOps.discAt ((2 : ℚ), (3 : ℚ)) ((2 - 1) * 300))
            (pointOps.negBuffer (5, 6) (10 * 2)))).1 0) 100,
          min (max (pointOps.centroid (pointOps.inter
            (pointOps.discAt ((2 : ℚ), (3 : ℚ)) ((2 - 1) * 300))
            (pointOps.negBuffer (5, 6) (10 * 2)))).2 0) 100,
          (4 : ℚ))) ∧
    (pointOps.isEmpty (pointOps.inter
        (pointOps.discAt ((2 : ℚ), (3 : ℚ)) ((2 - 1) * 300))
        (pointOps.negBuffer (5, 6) (10 * 2))) = true →
      performSafePoint pointOps (5, 6) ((2 : ℚ), (3 : ℚ), (4 : ℚ)) (0, 0, 100, 100) 10 2 =
        some (min (max (pointOps.nearestIn ((2 : ℚ), (3 : ℚ))
            (pointOps.negBuffer (5, 6) (10 * 2))).1 0) 100,
          min (max (pointOps.nearestIn ((2 : ℚ), (3 : ℚ))
            (pointOps.negBuffer (5, 6) (10 * 2))).2 0) 100,
          (4 : ℚ))) :=
  retry_search_selection pointOps (5, 6) ((2 : ℚ), (3 : ℚ), (4 : ℚ)) 0 0 100 100 10 2
    rfl rfl (by norm_num)

/-! ## Dynamic collision zones (claim C7) -/

/-- One learned obstacle zone, as stored in `_dynamic_collision_zones`. -/
structure DynZone where
  x : ℚ
  y : ℚ
  z : ℚ
  radius : ℚ
  zoneName : String
  deriving DecidableEq

/-- The zone-search loop of `_add_or_expand_dynamic_collision_zone`: find the
first zone of the same zone name whose center lies within 100 units (2D) of
the failed position and expand it in place by the player radius. The Python
test `((dx)**2 + (dy)**2)**0.5 < 100` is rendered by the equivalent exact
comparison of squares (both sides are nonnegative). -/
def expandFirst (p : Pt2) (zname : String) (playerRadius : ℚ) :
    List DynZone → Option (List DynZone)
  | [] => none
  | z :: zs =>
      if z.zoneName = zname ∧ (z.x - p.1) ^ 2 + (z.y - p.2) ^ 2 < 100 ^ 2 then
        some ({ z with radius := z.radius + playerRadius } :: zs)
      else
        (expandFirst p zname playerRadius zs).map (z :: ·)

/-- One call of `_add_or_expand_dynamic_collision_zone` (WorldsCollide.py
lines 46-84): expand the first matching zone, or append a new zone with the
base radius 50. -/
def addOrExpandZone (zones : List DynZone) (failedPos : Vec3) (zname : String)
    (playerRadius : ℚ) : List DynZone :=
  match expandFirst (failedPos.1, failedPos.2.1) zname playerRadius zones with
  | some zs => zs
  | none => zones ++ [⟨failedPos.1, failedPos.2.1, failedPos.2.2, 50, zname⟩]

/-- A sequence of verified failures recorded at the same position. -/
def recordFailures : Nat → List DynZone → Vec3 → String → ℚ → List DynZone
  | 0, zones, _, _, _ => zones
  | n + 1, zones, p, zn, r => recordFailures n (addOrExpandZone zones p zn r) p zn r

theorem expandFirst_length {p : Pt2} {zn : String} {r : ℚ} :
    ∀ {zones zs2 : List DynZone}, expandFirst p zn r zones = some zs2 →
      zs2.length = zones.length := by
  intro zones
  induction zones with
  | nil => intro zs2 h; cases h
  | cons z zs ih =>
      intro zs2 h
      rw [expandFirst] at h
      split at h
      · simp only [Option.some.injEq] at h
        subst h
        rfl
      · cases hrec : expandFirst p zn r zs with
        | none => rw [hrec] at h; cases h
        | some zs3 =>
            rw [hrec] at h
            simp only [Option.map_some', Option.some.injEq] at h
            subst h
            simp [ih hrec]

theorem expandFirst_isSome (p : Pt2) (zn : String) (r : ℚ) (zones : List DynZone)
    (h : ∃ z ∈ zones, z.zoneName = zn ∧ (z.x - p.1) ^ 2 + (z.y - p.2) ^ 2 < 100 ^ 2) :
    (expandFirst p zn r zones).isSome := by
  induction zones with
  | nil => simp at h
  | cons z zs ih =>
      rw [expandFirst]
      split
      · simp
      next hcond =>
        obtain ⟨z0, hz0, hc⟩ := h
        rcases List.mem_cons.mp hz0 with rfl | hmem
        · exact absurd hc hcond
        · have := ih ⟨z0, hmem, hc⟩
          cases hrec : expandFirst p zn r zs with
          | none => rw [hrec] at this; cases this
          | some zs3 => simp [hrec]

theorem expandFirst_grows {p : Pt2} {zn : String} {r : ℚ} (hr : 0 ≤ r) :
    ∀ {zones zs2 : List DynZone}, expandFirst p zn r zones = some zs2 →
      ∀ z ∈ zones, ∃ z2 ∈ zs2, z2.x = z.x ∧ z2.y = z.y ∧ z2.z = z.z ∧
        z2.zoneName = z.zoneName ∧ z.radius ≤ z2.radius := by
  intro zones
  induction zones with
  | nil => intro zs2 h; cases h
  | cons z zs ih =>
      intro zs2 h z0 hz0
      rw [expandFirst] at h
      split at h
      · simp only [Option.some.injEq] at h
        subst h
        rcases List.mem_cons.mp hz0 with rfl | hmem
        · exact ⟨{ z0 with radius := z0.radius + r }, List.mem_cons_self _ _,
            rfl, rfl, rfl, rfl, show z0.radius ≤ z0.radius + r by linarith⟩
        · exact ⟨z0, List.mem_cons_of_mem _ hmem, rfl, rfl, rfl, rfl, le_refl _⟩
      · cases hrec : expandFirst p zn r zs with
        | none => rw [hrec] at h; cases h
        | some zs3 =>
            rw [hrec] at h
            simp only [Option.map_some', Option.some.injEq] at h
            subst h
            rcases List.mem_cons.mp hz0 with rfl | hmem
            · exact ⟨z0, List.mem_cons_self _ _, rfl, rfl, rfl, rfl, le_refl _⟩
            · obtain ⟨z2, hz2, hprops⟩ := ih hrec z0 hmem
              exact ⟨z2, List.mem_cons_of_mem _ hz2, hprops⟩

theorem recordFailures_single (m : Nat) (p : Vec3) (zn : String) (r ρ : ℚ) :
    recordFailures m [⟨p.1, p.2.1, p.2.2, ρ, zn⟩] p zn r =
      [⟨p.1, p.2.1, p.2.2, ρ + m * r, zn⟩] := by
  induction m generalizing ρ with
  | zero => simp [recordFailures]
  | succ m ih =>
      rw [recordFailures]
      have hc : (⟨p.1, p.2.1, p.2.2, ρ, zn⟩ : DynZone).zoneName = zn ∧
          ((⟨p.1, p.2.1, p.2.2, ρ, zn⟩ : DynZone).x - p.1) ^ 2 +
            ((⟨p.1, p.2.1, p.2.2, ρ, zn⟩ : DynZone).y - p.2.1) ^ 2 < 100 ^ 2 := by
        refine ⟨rfl, ?_⟩
        simp only [sub_self]
        norm_num
      have hstep : addOrExpandZone [⟨p.1, p.2.1, p.2.2, ρ, zn⟩] p zn r =
          [⟨p.1, p.2.1, p.2.2, ρ + r, zn⟩] := by
        rw [addOrExpandZone, expandFirst, if_pos hc]
      rw [hstep, ih]
      congr 1
      push_cast
      ring_nf

/-- C7 corrected (amended): for every sequence of verified teleport failures
recorded in one region, a failure within the merge threshold (100 units) of
an existing zone's center expands that zone's radius by the acting player
radius rather than creating a duplicate zone — so n failures at the same
point, starting with no zone there, leave exactly one zone with radius
initial_radius + (n-1)·actor_radius (the first failure creates the zone at
the initial radius 50 and only the n-1 later failures expand it) — and a
zone's radius never shrinks. -/
theorem zone_merge_amended :
    (∀ (zones : List DynZone) (p : Vec3) (zn : String) (r : ℚ) (z : DynZone),
        z ∈ zones → 0 ≤ r →
        ∃ z2 ∈ addOrExpandZone zones p zn r, z2.x = z.x ∧ z2.y = z.y ∧ z2.z = z.z ∧
          z2.zoneName = z.zoneName ∧ z.radius ≤ z2.radius) ∧
    (∀ (zones : List DynZone) (p : Vec3) (zn : String) (r : ℚ),
        (∃ z ∈ zones, z.zoneName = zn ∧
          (z.x - p.1) ^ 2 + (z.y - p.2.1) ^ 2 < 100 ^ 2) →
        (addOrExpandZone zones p zn r).length = zones.length) ∧
    (∀ (n : Nat) (p : Vec3) (zn : String) (r : ℚ), 1 ≤ n →
        recordFailures n [] p zn r =
          [⟨p.1, p.2.1, p.2.2, 50 + ((n : ℚ) - 1) * r, zn⟩]) := by
  refine ⟨?_, ?_, ?_⟩
  · intro zones p zn r z hz hr
    rw [addOrExpandZone]
    cases hrec : expandFirst (p.1, p.2.1) zn r zones with
    | some zs2 =>
        obtain ⟨z2, hz2, hprops⟩ := expandFirst_grows hr hrec z hz
        exact ⟨z2, hz2, hprops⟩
    | none =>
        exact ⟨z, List.mem_append_left _ hz, rfl, rfl, rfl, rfl, le_refl _⟩
  · intro zones p zn r hmatch
    rw [addOrExpandZone]
    cases hrec : expandFirst (p.1, p.2.1) zn r zones with
    | some zs2 => exact expandFirst_length hrec
    | none =>
        have := expandFirst_isSome (p.1, p.2.1) zn r zones hmatch
        rw [hrec] at this
        cases this
  · intro n p zn r hn
    obtain ⟨m, rfl⟩ := Nat.exists_eq_add_of_le hn
    rw [Nat.add_comm, recordFailures]
    have hfirst : addOrExpandZone [] p zn r = [⟨p.1, p.2.1, p.2.2, 50, zn⟩] := by
      rw [addOrExpandZone, expandFirst]
      simp
    rw [hfirst, recordFailures_single]
    congr 1
    push_cast
    ring_nf

/-- Counterexample for C7 as stated: three verified failures at the same
point with actor radius 10 leave one zone of radius 70 = 50 + 2·10, not the
claimed initial_radius + 3·actor_radius = 80. -/
theorem zone_growth_counterexample :
    recordFailures 3 [] ((0 : ℚ), (0 : ℚ), (0 : ℚ)) "z" 10 =
      [⟨0, 0, 0, 70, "z"⟩] ∧ (70 : ℚ) ≠ 50 + 3 * 10 := by
  constructor
  · rw [show (3 : Nat) = 1 + 2 from rfl]
    have := zone_merge_amended.2.2 3 ((0 : ℚ), (0 : ℚ), (0 : ℚ)) "z" 10 (by norm_num)
    rw [show (1 + 2 : Nat) = 3 from rfl, this]
    norm_num
  · norm_num

/-- Witness for the amended C7 theorem: three failures at the origin with
actor radius 10 leave exactly one zone of radius 70. -/
theorem zone_merge_amended_witness :
    recordFailures 3 [] ((0 : ℚ), (0 : ℚ), (0 : ℚ)) "z" 10 =
      [⟨0, 0, 0, 50 + ((3 : ℚ) - 1) * 10, "z"⟩] :=
  zone_merge_amended.2.2 3 ((0 : ℚ), (0 : ℚ), (0 : ℚ)) "z" 10 (by norm_num)

/-! ## WCP collision cache (claim C8)

A shapely polygon constructed from a coordinate list stores that list plus a
duplicated closing point as its exterior ring; `save_wcp_collision_cache`
strips the closing duplicate before writing JSON, and
`load_cached_wcp_collision` rebuilds `Polygon(coords)` from each saved list.
A polygon is therefore represented here by its ring without the closing
point. Python's `json` module round-trips floats exactly (`repr`-based), so
the coordinates themselves are carried unchanged. -/

/-- A geometry as the cache save function classifies it by `geom_type`. -/
inductive CacheGeom where
  | polygon (ring : List Pt2)
  | lineString (pts : List Pt2)
  deriving DecidableEq

/-- `save_wcp_collision_cache` (collision.py lines 409-433), reduced to the
JSON payload it writes: each Polygon contributes its exterior ring without
the duplicated closing point; non-polygon geometries are skipped with a
warning. -/
def save_wcp_collision_cache (polys : List CacheGeom) : List (List Pt2) :=
  polys.flatMap (fun g =>
    match g with
    | .polygon ring => [ring]
    | .lineString _ => [])

/-- `load_cached_wcp_collision` (collision.py lines 382-406), reduced to the
data it reconstructs: every saved coordinate list with at least 3 points
becomes a polygon again. -/
def load_cached_wcp_collision (data : List (List Pt2)) : List CacheGeom :=
  (data.filter (fun c => 3 ≤ c.length)).map .polygon

/-- C8: Saving any list of polygons with save_wcp_collision_cache and loading
it back with load_cached_wcp_collision reproduces the same set of polygon
vertex rings (order-insensitive comparison of coordinate sets, within float
tolerance 1e-6). Proven in the strongest form: for nonempty polygons (a
nonempty shapely polygon ring always has at least 3 distinct-of-closing
points) the round-trip is the identity on the list itself, which implies
set equality within any tolerance. -/
theorem wcp_cache_roundtrip (polys : List CacheGeom)
    (h : ∀ g ∈ polys, ∃ ring, g = .polygon ring ∧ 3 ≤ ring.length) :
    load_cached_wcp_collision (save_wcp_collision_cache polys) = polys := by
  induction polys with
  | nil => rfl
  | cons g gs ih =>
      obtain ⟨ring, rfl, hlen⟩ := h g (List.mem_cons_self g gs)
      rw [save_wcp_collision_cache, List.flatMap_cons, load_cached_wcp_collision]
      rw [show [ring] ++ gs.flatMap (fun g =>
          match g with
          | .polygon ring => [ring]
          | .lineString _ => []) =
        ring :: save_wcp_collision_cache gs from rfl]
      rw [List.filter_cons_of_pos (by simpa using hlen), List.map_cons]
      rw [show (List.filter (fun c => decide (3 ≤ c.length))
          (save_wcp_collision_cache gs)).map CacheGeom.polygon =
        load_cached_wcp_collision (save_wcp_collision_cache gs) from rfl]
      rw [ih (fun g hg => h g (List.mem_cons_of_mem _ hg))]

/-- Witness for C8 at a concrete polygon list. -/
theorem wcp_cache_roundtrip_witness :
    load_cached_wcp_collision (save_wcp_collision_cache
      [.polygon [(0, 0), (1, 0), (0, 1)], .polygon [(5, 5), (9, 5), (9, 9), (5, 9)]]) =
      [.polygon [(0, 0), (1, 0), (0, 1)], .polygon [(5, 5), (9, 5), (9, 9), (5, 9)]] :=
  wcp_cache_roundtrip
    [.polygon [(0, 0), (1, 0), (0, 1)], .polygon [(5, 5), (9, 5), (9, 9), (5, 9)]]
    (by
      intro g hg
      simp only [List.mem_cons, List.not_mem_nil, or_false] at hg
      rcases hg with rfl | rfl
      · exact ⟨_, rfl, by norm_num⟩
      · exact ⟨_, rfl, by norm_num⟩)

/-! ## Defensive polygon filter (claim C10) -/

/-- A shapely geometry as `filter_valid_polygons` classifies it. A
`multiPolygon` holds the rings of its member polygons: shapely guarantees
every member of a MultiPolygon is a Polygon. -/
inductive PyGeom where
  | polygon (ring : List Pt2)
  | multiPolygon (polys : List (List Pt2))
  | lineString (pts : List Pt2)
  | pointGeom (p : Pt2)
  deriving DecidableEq

/-- The `geom_type == Polygon` test. -/
def isPolygonGeom : PyGeom → Bool
  | .polygon _ => true
  | _ => false

/-- `filter_valid_polygons` (WorldsCollide.py lines 254-271): keep Polygon
geometries, flatten a MultiPolygon into its member polygons, drop everything
else. -/
def filter_valid_polygons (shapes : List PyGeom) : List PyGeom :=
  shapes.flatMap (fun s =>
    match s with
    | .polygon r => [.polygon r]
    | .multiPolygon ps => ps.map .polygon
    | _ => [])

/-- The filtering sequence of `WorldsCollideTP` (lines 1193-1207): the
static, entity, mesh and learned (dynamic) shape lists are each passed
through `filter_valid_polygons`, and the obstacle list entering the union is
the concatenation of the filtered static, entity and dynamic lists; the
filtered mesh list is kept separately. -/
def assembleObstacleShapes (staticShapes entityShapes meshShapes dynamicShapes :
    List PyGeom) : List PyGeom × List PyGeom :=
  (filter_valid_polygons staticShapes ++ filter_valid_polygons entityShapes ++
    filter_valid_polygons dynamicShapes, filter_valid_polygons meshShapes)

/-- C10: Every geometry in the list returned by the defensive polygon filter
has geom_type Polygon (and hence an exterior ring): MultiPolygon inputs are
flattened into their individual component polygons rather than discarded,
all other geometry kinds (e.g. LineString) are removed, and this filter is
applied to the static, entity, mesh, and learned shape lists before they
enter the obstacle union. -/
theorem filter_valid_polygons_spec :
    (∀ (shapes : List PyGeom) (g : PyGeom), g ∈ filter_valid_polygons shapes →
        isPolygonGeom g = true) ∧
    (∀ (shapes : List PyGeom) (r : List Pt2),
        (.polygon r ∈ filter_valid_polygons shapes ↔
          (.polygon r ∈ shapes ∨ ∃ ps, .multiPolygon ps ∈ shapes ∧ r ∈ ps))) ∧
    (∀ (s e m d : List PyGeom),
        (∀ g ∈ (assembleObstacleShapes s e m d).1, isPolygonGeom g = true) ∧
        (∀ g ∈ (assembleObstacleShapes s e m d).2, isPolygonGeom g = true)) := by
  have hall : ∀ (shapes : List PyGeom) (g : PyGeom), g ∈ filter_valid_polygons shapes →
      isPolygonGeom g = true := by
    intro shapes g hg
    rw [filter_valid_polygons, List.mem_flatMap] at hg
    obtain ⟨s, _, hgs⟩ := hg
    match s with
    | .polygon r =>
        simp only [List.mem_singleton] at hgs
        subst hgs
        rfl
    | .multiPolygon ps =>
        simp only [List.mem_map] at hgs
        obtain ⟨r, _, rfl⟩ := hgs
        rfl
    | .lineString _ => cases hgs
    | .pointGeom _ => cases hgs
  refine ⟨hall, ?_, ?_⟩
  · intro shapes r
    rw [filter_valid_polygons, List.mem_flatMap]
    constructor
    · rintro ⟨s, hs, hr⟩
      match s with
      | .polygon r2 =>
          simp only [List.mem_singleton, PyGeom.polygon.injEq] at hr
          subst hr
          exact Or.inl hs
      | .multiPolygon ps =>
          simp only [List.mem_map, PyGeom.polygon.injEq] at hr
          obtain ⟨r2, hr2, rfl⟩ := hr
          exact Or.inr ⟨ps, hs, hr2⟩
      | .lineString _ => cases hr
      | .pointGeom _ => cases hr
    · rintro (hr | ⟨ps, hps, hr⟩)
      · exact ⟨.polygon r, hr, List.mem_singleton.mpr rfl⟩
      · exact ⟨.multiPolygon ps, hps, List.mem_map.mpr ⟨r, hr, rfl⟩⟩
  · intro s e m d
    constructor
    · intro g hg
      rcases List.mem_append.mp hg with hg2 | hg2
      · rcases List.mem_append.mp hg2 with hg3 | hg3
        · exact hall s g hg3
        · exact hall e g hg3
      · exact hall d g hg2
    · intro g hg
      exact hall m g hg

/-- Witness for C10 at a concrete mixed shape list. -/
theorem filter_valid_polygons_spec_witness :
    isPolygonGeom (.polygon [(0, 0), (1, 0), (0, 1)]) = true :=
  filter_valid_polygons_spec.1
    [.lineString [(0, 0), (1, 1)], .multiPolygon [[(0, 0), (1, 0), (0, 1)]]]
    (.polygon [(0, 0), (1, 0), (0, 1)])
    (by
      rw [filter_valid_polygons]
      simp)

/-! ## Entity collision extraction (claim C9)

`extract_nif_collision_shape` (collision.py lines 537-700). The NIF scene
parsing (pyffi) is a swappable external asset decoder per the spec; the
model starts from the extracted vertex list. The DBSCAN clustering call and
the shapely convex-hull-with-area call are external library calls, passed as
abstract function parameters; the scan loop carries explicit fuel since its
termination depends on the sign of the slice step. -/

/-- Tuning parameters of `extract_nif_collision_shape` with the source's
default values. -/
structure NifParams where
  playerHeight : ℚ
  epsilon : ℚ
  maxPolyArea : ℚ
  sliceStep : ℚ
  minRequiredPoints : Nat

/-- A returned collision shape: one polygon or several. -/
inductive NifShape where
  | single (ring : List Pt2)
  | multi (rings : List (List Pt2))
  deriving DecidableEq

/-- Minimum of a list of rationals (0 for the empty list, which the caller
below never passes). -/
def qMin : List ℚ → ℚ
  | [] => 0
  | x :: xs => xs.foldl min x

/-- Maximum of a list of rationals. -/
def qMax : List ℚ → ℚ
  | [] => 0
  | x :: xs => xs.foldl max x

/-- The base-level scan loop: step upward from the bottom in slice_step
increments until a Z window holds at least min_required_points points. -/
def findBaseSlice (verts : List Vec3) (step : ℚ) (minReq : Nat) (maxZ : ℚ) :
    Nat → ℚ → Option (ℚ × List Pt2)
  | 0, _ => none
  | fuel + 1, currentZ =>
      if currentZ < maxZ then
        let slicePoints := (verts.filter
          (fun v => currentZ ≤ v.2.2 ∧ v.2.2 < currentZ + step)).map (fun v => (v.1, v.2.1))
        if minReq ≤ slicePoints.length then some (currentZ, slicePoints)
        else findBaseSlice verts step minReq maxZ fuel (currentZ + step)
      else none

/-- `extract_nif_collision_shape`, from the extracted vertex list onward:
the fallback radius from the model's X/Y extent, the base-slice scan, the
actor-height band versus base-window choice with its 20 percent threshold,
the clustering and hull filtering, and the none / single / multi return
shape. `clusterFn` receives the adaptive epsilon and the selected points;
`hullOf` returns a hull ring with its area, or `none` for a degenerate
(LineString) hull. -/
def extract_nif_collision_shape
    (clusterFn : ℚ → List Pt2 → List (List Pt2))
    (hullOf : List Pt2 → Option (List Pt2 × ℚ))
    (fuel : Nat) (verts : List Vec3) (p : NifParams) : Option NifShape × ℚ :=
  match verts with
  | [] => (none, 25)
  | v0 :: vrest =>
      let allVerts := v0 :: vrest
      let minZ := qMin (allVerts.map (fun v => v.2.2))
      let maxZ := qMax (allVerts.map (fun v => v.2.2))
      let xRange := qMax (allVerts.map (fun v => v.1)) - qMin (allVerts.map (fun v => v.1))
      let yRange := qMax (allVerts.map (fun v => v.2.1)) -
        qMin (allVerts.map (fun v => v.2.1))
      let radiusFallback := max 10 (min (max xRange yRange * (1/2)) 100)
      match findBaseSlice allVerts p.sliceStep p.minRequiredPoints maxZ fuel minZ with
      | none => (none, radiusFallback)
      | some (baseZ, basePoints) =>
          if basePoints.length < 3 then (none, radiusFallback)
          else
            let heightRangeMax := baseZ + p.playerHeight
            let heightRangePoints := (allVerts.filter
              (fun v => baseZ ≤ v.2.2 ∧ v.2.2 ≤ heightRangeMax)).map (fun v => (v.1, v.2.1))
            let collisionPoints :=
              if (basePoints.length : ℚ) * (6/5) < (heightRangePoints.length : ℚ) then
                heightRangePoints
              else basePoints
            if collisionPoints.length < 3 then (none, radiusFallback)
            else
              let xr := qMax (collisionPoints.map (fun q => q.1)) -
                qMin (collisionPoints.map (fun q => q.1))
              let yr := qMax (collisionPoints.map (fun q => q.2)) -
                qMin (collisionPoints.map (fun q => q.2))
              let adaptiveEpsilon := min p.epsilon (max xr yr * (1/10))
              let clusters := clusterFn adaptiveEpsilon collisionPoints
              let validPolygons := clusters.filterMap (fun cl =>
                if 3 ≤ cl.length then
                  match hullOf cl with
                  | some (ring, area) =>
                      if area ≤ p.maxPolyArea ∧ 1 < area then some ring else none
                  | none => none
                else none)
              match validPolygons with
              | [] => (none, radiusFallback)
              | [ring] => (some (.single ring), radiusFallback)
              | rings => (some (.multi rings), radiusFallback)

/-- C9: For every input to the entity collision extraction, the returned
fallback radius is always computed as half the larger of the model's X/Y
vertex extent, clamped into [10,100], and is returned alongside the shape
result — including when extraction yields no polygons. Stated for every
model with at least one vertex (with no vertices there is no extent and the
source takes its missing-data path), every clustering and hull behaviour,
every fuel and every parameter set, hence for every return path. -/
theorem nif_fallback_radius_always_computed
    (clusterFn : ℚ → List Pt2 → List (List Pt2))
    (hullOf : List Pt2 → Option (List Pt2 × ℚ))
    (fuel : Nat) (verts : List Vec3) (p : NifParams) (hne : verts ≠ []) :
    (extract_nif_collision_shape clusterFn hullOf fuel verts p).2 =
      max 10 (min ((max
        (qMax (verts.map (fun v => v.1)) - qMin (verts.map (fun v => v.1)))
        (qMax (verts.map (fun v => v.2.1)) - qMin (verts.map (fun v => v.2.1)))) / 2)
        100) := by
  match verts with
  | [] => exact absurd rfl hne
  | v0 :: vrest =>
      have h2 : ∀ m : ℚ, m * (1/2) = m / 2 := by intro m; ring
      simp only [extract_nif_collision_shape, h2]
      cases hfb : findBaseSlice (v0 :: vrest) p.sliceStep p.minRequiredPoints
          (qMax ((v0 :: vrest).map (fun v => v.2.2))) fuel
          (qMin ((v0 :: vrest).map (fun v => v.2.2))) with
      | none => rfl
      | some base =>
          obtain ⟨baseZ, basePoints⟩ := base
          repeat' split
          all_goals rfl

/-- Witness for C9: a three-vertex model with trivial clustering; extraction
yields no polygons and the fallback radius is still the clamped half extent
(here the extent is 40, so the radius is 20). -/
theorem nif_fallback_radius_always_computed_witness :
    (extract_nif_collision_shape (fun _ _ => []) (fun _ => none) 3
      [((0 : ℚ), (0 : ℚ), (0 : ℚ)), (40, 0, 0), (0, 30, 1)]
      ⟨200, 50, 100000, 5, 1⟩).2 =
      max 10 (min ((max
        (qMax ([((0 : ℚ), (0 : ℚ), (0 : ℚ)), (40, 0, 0), (0, 30, 1)].map (fun v => v.1)) -
          qMin ([((0 : ℚ), (0 : ℚ), (0 : ℚ)), (40, 0, 0), (0, 30, 1)].map (fun v => v.1)))
        (qMax ([((0 : ℚ), (0 : ℚ), (0 : ℚ)), (40, 0, 0), (0, 30, 1)].map (fun v => v.2.1)) -
          qMin ([((0 : ℚ), (0 : ℚ), (0 : ℚ)), (40, 0, 0), (0, 30, 1)].map
            (fun v => v.2.1)))) / 2) 100) :=
  nif_fallback_radius_always_computed (fun _ _ => []) (fun _ => none) 3
    [((0 : ℚ), (0 : ℚ), (0 : ℚ)), (40, 0, 0), (0, 30, 1)]
    ⟨200, 50, 100000, 5, 1⟩ (by simp)

/-! ## The buffer disc polygon (claim C3)

shapely `Point(x, y).buffer(r)` produces a regular polygon approximating the
disc: with the default `quad_segs = 8` the exterior ring has 4·8 = 32
vertices placed on the circle of radius r around the center, the first
vertex repeated at the end to close the ring. The area and centroid below
are the standard closed-ring shoelace formulas such a polygon realises. -/

theorem list_sum_range_map {M : Type} [AddCommMonoid M] (g : ℕ → M) (n : ℕ) :
    ((List.range n).map g).sum = ∑ k ∈ Finset.range n, g k := by
  induction n with
  | zero => rfl
  | succ n ih =>
      rw [List.range_succ, List.map_append, List.sum_append, Finset.sum_range_succ, ih]
      simp

theorem zip_tail_map {α : Type} (n : ℕ) (f : ℕ → α) :
    (((List.range (n + 1)).map f).zip (((List.range (n + 1)).map f).tail)) =
      (List.range n).map (fun k => (f k, f (k + 1))) := by
  induction n generalizing f with
  | zero => rfl
  | succ n ih =>
      have h1 : List.range (n + 2) = 0 :: (List.range (n + 1)).map Nat.succ :=
        List.range_succ_eq_map (n + 1)
      have h2 : (List.range (n + 1)).map (fun k => f (Nat.succ k)) =
          f 1 :: (List.range n).map (fun k => f (k + 2)) := by
        rw [List.range_succ_eq_map, List.map_cons]
        rw [List.map_map]
        rfl
      rw [h1, List.map_cons, List.map_map, List.tail_cons]
      have h3 := ih (fun k => f (Nat.succ k))
      rw [show (f ∘ Nat.succ) = (fun k => f (Nat.succ k)) from rfl]
      rw [h2, List.zip_cons_cons]
      have h4 : List.zip (f 1 :: (List.range n).map (fun k => f (k + 2)))
          ((List.range n).map (fun k => f (k + 2))) =
          (List.range n).map (fun k => (f (k + 1), f (k + 2))) := by
        have h5 := h3
        rw [h2] at h5
        rw [List.tail_cons] at h5
        convert h5 using 2
      rw [h4, List.range_succ_eq_map, List.map_cons, List.map_map]
      rfl

/-- The rotation by one vertex step of the n-gon. -/
noncomputable def discTurn (n : ℕ) : ℂ :=
  Complex.exp (((2 * Real.pi / n : ℝ) : ℂ) * Complex.I)

/-- Vertex k of the inscribed regular n-gon around c with radius r. -/
noncomputable def discVert (c : ℂ) (r : ℝ) (n k : ℕ) : ℂ :=
  c + (r : ℂ) * discTurn n ^ k

/-- The closed exterior ring of the buffer polygon: n vertices, the first
repeated at the end (discTurn n ^ n = 1 for the instantiations used). -/
noncomputable def discRing (c : ℂ) (r : ℝ) (n : ℕ) : List ℂ :=
  (List.range (n + 1)).map (discVert c r n)

/-- The shoelace cross of one edge. -/
def edgeCross (z w : ℂ) : ℝ := ((starRingEnd ℂ) z * w).im

/-- Shoelace area of a closed ring. -/
noncomputable def ringArea (l : List ℂ) : ℝ :=
  ((l.zip l.tail).map (fun p => edgeCross p.1 p.2)).sum / 2

/-- Shoelace centroid of a closed ring. -/
noncomputable def ringCentroid (l : List ℂ) : ℂ :=
  ((l.zip l.tail).map (fun p => (p.1 + p.2) * ((edgeCross p.1 p.2 : ℝ) : ℂ))).sum /
    (6 * ((ringArea l : ℝ) : ℂ))

theorem discRing_edge_sum {M : Type} [AddCommMonoid M] (c : ℂ) (r : ℝ) (n : ℕ)
    (F : ℂ → ℂ → M) :
    (((discRing c r n).zip (discRing c r n).tail).map (fun p => F p.1 p.2)).sum =
      ∑ k ∈ Finset.range n, F (discVert c r n k) (discVert c r n (k + 1)) := by
  rw [discRing, zip_tail_map, List.map_map, list_sum_range_map]
  rfl

theorem real_mul_im (r : ℝ) (z : ℂ) : ((r : ℂ) * z).im = r * z.im := by
  simp [Complex.mul_im]

theorem discTurn_mul_conj (n : ℕ) :
    discTurn n * (starRingEnd ℂ) (discTurn n) = 1 := by
  rw [Complex.mul_conj, Complex.normSq_eq_abs, discTurn, Complex.abs_exp_ofReal_mul_I]
  norm_num

theorem conj_pow_mul (n k : ℕ) :
    (starRingEnd ℂ) (discTurn n ^ k) * discTurn n ^ k = 1 := by
  rw [map_pow, ← mul_pow, mul_comm, discTurn_mul_conj, one_pow]

theorem conj_pow_mul_succ (n k : ℕ) :
    (starRingEnd ℂ) (discTurn n ^ k) * discTurn n ^ (k + 1) = discTurn n := by
  rw [pow_succ, ← mul_assoc, conj_pow_mul, one_mul]

theorem edgeCross_discVert (c : ℂ) (r : ℝ) (n k : ℕ) :
    edgeCross (discVert c r n k) (discVert c r n (k + 1)) =
      (r * ((starRingEnd ℂ) c * discTurn n ^ (k + 1)).im -
        r * ((starRingEnd ℂ) c * discTurn n ^ k).im) + r ^ 2 * (discTurn n).im := by
  have hexp : (starRingEnd ℂ) (discVert c r n k) * discVert c r n (k + 1) =
      (starRingEnd ℂ) c * c + (r : ℂ) * ((starRingEnd ℂ) c * discTurn n ^ (k + 1)) +
        (r : ℂ) * ((starRingEnd ℂ) ((starRingEnd ℂ) c * discTurn n ^ k)) +
        ((r : ℝ) ^ 2 : ℝ) * ((starRingEnd ℂ) (discTurn n ^ k) * discTurn n ^ (k + 1)) := by
    rw [discVert, discVert, map_add, map_mul, Complex.conj_ofReal]
    rw [map_mul, Complex.conj_conj]
    push_cast
    ring
  rw [edgeCross, hexp, conj_pow_mul_succ]
  rw [Complex.add_im, Complex.add_im, Complex.add_im]
  have h1 : ((starRingEnd ℂ) c * c).im = 0 := by
    rw [mul_comm, Complex.mul_conj, Complex.ofReal_im]
  have h4 : (((r : ℝ) ^ 2 : ℝ) * discTurn n : ℂ).im = r ^ 2 * (discTurn n).im :=
    real_mul_im _ _
  rw [h1, real_mul_im, real_mul_im, h4, Complex.conj_im]
  ring

theorem sum_edgeCross_discVert (c : ℂ) (r : ℝ) (n : ℕ) (hun : discTurn n ^ n = 1) :
    ∑ k ∈ Finset.range n, edgeCross (discVert c r n k) (discVert c r n (k + 1)) =
      n * r ^ 2 * (discTurn n).im := by
  rw [Finset.sum_congr rfl (fun k _ => edgeCross_discVert c r n k)]
  rw [Finset.sum_add_distrib, Finset.sum_range_sub
    (fun k => r * ((starRingEnd ℂ) c * discTurn n ^ k).im)]
  rw [hun, pow_zero]
  simp [Finset.sum_const, mul_comm]
  ring

theorem discRing_area (c : ℂ) (r : ℝ) (n : ℕ) (hun : discTurn n ^ n = 1) :
    ringArea (discRing c r n) = n * r ^ 2 * (discTurn n).im / 2 := by
  rw [ringArea, discRing_edge_sum, sum_edgeCross_discVert c r n hun]

theorem discTurn_ne_zero (n : ℕ) : discTurn n ≠ 0 := Complex.exp_ne_zero _

theorem conj_discTurn_eq_inv (n : ℕ) :
    (starRingEnd ℂ) (discTurn n) = (discTurn n)⁻¹ :=
  eq_inv_of_mul_eq_one_left (by rw [mul_comm]; exact discTurn_mul_conj n)

theorem cast_im_eq (w : ℂ) :
    ((w.im : ℝ) : ℂ) = (w - (starRingEnd ℂ) w) / (2 * Complex.I) := by
  rw [Complex.sub_conj]
  push_cast
  field_simp
  ring

theorem sum_discTurn_pow (n : ℕ) (hu1 : discTurn n ≠ 1) (hun : discTurn n ^ n = 1) :
    ∑ k ∈ Finset.range n, discTurn n ^ k = 0 := by
  rw [geom_sum_eq hu1, hun]
  simp

theorem discRing_centroid_num (c : ℂ) (r : ℝ) (n : ℕ) (hu1 : discTurn n ≠ 1)
    (hun : discTurn n ^ n = 1) :
    (((discRing c r n).zip (discRing c r n).tail).map
      (fun p => (p.1 + p.2) * ((edgeCross p.1 p.2 : ℝ) : ℂ))).sum =
      3 * (n : ℂ) * c * ((r ^ 2 * (discTurn n).im : ℝ) : ℂ) := by
  rw [discRing_edge_sum c r n (fun z w => (z + w) * ((edgeCross z w : ℝ) : ℂ))]
  have hu0 : discTurn n ≠ 0 := discTurn_ne_zero n
  have hsplit : ∀ k ∈ Finset.range n,
      (discVert c r n k + discVert c r n (k + 1)) *
        ((edgeCross (discVert c r n k) (discVert c r n (k + 1)) : ℝ) : ℂ) =
      2 * c * ((edgeCross (discVert c r n k) (discVert c r n (k + 1)) : ℝ) : ℂ) +
        (r : ℂ) * (discTurn n ^ k + discTurn n ^ (k + 1)) *
          ((edgeCross (discVert c r n k) (discVert c r n (k + 1)) : ℝ) : ℂ) := by
    intro k _
    rw [discVert, discVert]
    ring
  rw [Finset.sum_congr rfl hsplit, Finset.sum_add_distrib]
  have h1 : ∑ k ∈ Finset.range n,
      2 * c * ((edgeCross (discVert c r n k) (discVert c r n (k + 1)) : ℝ) : ℂ) =
      2 * c * ((n * r ^ 2 * (discTurn n).im : ℝ) : ℂ) := by
    rw [← Finset.mul_sum, ← Complex.ofReal_sum, sum_edgeCross_discVert c r n hun]
  -- the core per-edge identity for the weighted part
  have hcore : ∀ k : ℕ, (discTurn n ^ k + discTurn n ^ (k + 1)) *
      (((((starRingEnd ℂ) c * discTurn n ^ (k + 1)).im : ℝ) : ℂ) -
        ((((starRingEnd ℂ) c * discTurn n ^ k).im : ℝ) : ℂ)) =
      ((starRingEnd ℂ) c * (discTurn n ^ (k + 1)) ^ 2 / (2 * Complex.I) -
        (starRingEnd ℂ) c * (discTurn n ^ k) ^ 2 / (2 * Complex.I)) +
        c * (((discTurn n).im : ℝ) : ℂ) := by
    intro k
    rw [cast_im_eq ((starRingEnd ℂ) c * discTurn n ^ (k + 1)),
      cast_im_eq ((starRingEnd ℂ) c * discTurn n ^ k), cast_im_eq (discTurn n)]
    simp only [map_mul, map_pow, Complex.conj_conj, conj_discTurn_eq_inv]
    have hpk : discTurn n ^ k ≠ 0 := pow_ne_zero k hu0
    field_simp
    ring
  have hcast : ∀ k : ℕ,
      ((edgeCross (discVert c r n k) (discVert c r n (k + 1)) : ℝ) : ℂ) =
      (r : ℂ) * ((((starRingEnd ℂ) c * discTurn n ^ (k + 1)).im : ℝ) : ℂ) -
        (r : ℂ) * ((((starRingEnd ℂ) c * discTurn n ^ k).im : ℝ) : ℂ) +
        (r : ℂ) ^ 2 * (((discTurn n).im : ℝ) : ℂ) := by
    intro k
    rw [edgeCross_discVert]
    push_cast
    ring
  have h2 : ∑ k ∈ Finset.range n,
      (r : ℂ) * (discTurn n ^ k + discTurn n ^ (k + 1)) *
        ((edgeCross (discVert c r n k) (discVert c r n (k + 1)) : ℝ) : ℂ) =
      (r : ℂ) ^ 2 * ((n : ℂ) * c * (((discTurn n).im : ℝ) : ℂ)) := by
    have hterm : ∀ k ∈ Finset.range n,
        (r : ℂ) * (discTurn n ^ k + discTurn n ^ (k + 1)) *
          ((edgeCross (discVert c r n k) (discVert c r n (k + 1)) : ℝ) : ℂ) =
        (r : ℂ) ^ 2 * (((starRingEnd ℂ) c * (discTurn n ^ (k + 1)) ^ 2 / (2 * Complex.I) -
            (starRingEnd ℂ) c * (discTurn n ^ k) ^ 2 / (2 * Complex.I)) +
            c * (((discTurn n).im : ℝ) : ℂ)) +
          (r : ℂ) ^ 3 * (((discTurn n).im : ℝ) : ℂ) *
            (discTurn n ^ k + discTurn n ^ (k + 1)) := by
      intro k _
      rw [hcast k, ← hcore k]
      ring
    rw [Finset.sum_congr rfl hterm, Finset.sum_add_distrib, ← Finset.mul_sum,
      Finset.sum_add_distrib, Finset.sum_range_sub
        (fun k => (starRingEnd ℂ) c * (discTurn n ^ k) ^ 2 / (2 * Complex.I)),
      hun]
    have hzero : ∑ x ∈ Finset.range n, (r : ℂ) ^ 3 * (((discTurn n).im : ℝ) : ℂ) *
        (discTurn n ^ x + discTurn n ^ (x + 1)) = 0 := by
      rw [← Finset.mul_sum, Finset.sum_add_distrib]
      have hpow1 : ∑ k ∈ Finset.range n, discTurn n ^ (k + 1) =
          discTurn n * ∑ k ∈ Finset.range n, discTurn n ^ k := by
        rw [Finset.mul_sum]
        exact Finset.sum_congr rfl (fun k _ => by rw [pow_succ, mul_comm])
      rw [hpow1, sum_discTurn_pow n hu1 hun]
      simp
    rw [hzero, pow_zero, Finset.sum_const, Finset.card_range, nsmul_eq_mul]
    ring
  rw [h1, h2]
  push_cast
  ring

theorem discRing_centroid (c : ℂ) (r : ℝ) (n : ℕ) (hu1 : discTurn n ≠ 1)
    (hun : discTurn n ^ n = 1) (hn : (n : ℝ) ≠ 0) (hr : r ≠ 0)
    (hs : (discTurn n).im ≠ 0) :
    ringCentroid (discRing c r n) = c := by
  rw [ringCentroid, discRing_centroid_num c r n hu1 hun, discRing_area c r n hun]
  have hnc : (n : ℂ) ≠ 0 := by exact_mod_cast hn
  have hrc : (r : ℂ) ≠ 0 := by exact_mod_cast hr
  have hsc : ((discTurn n).im : ℂ) ≠ 0 := by exact_mod_cast hs
  have hden : (6 : ℂ) * (((n : ℝ) * r ^ 2 * (discTurn n).im / 2 : ℝ) : ℂ) =
      3 * (n : ℂ) * (r : ℂ) ^ 2 * ((discTurn n).im : ℂ) := by
    push_cast
    ring
  rw [hden, div_eq_iff (mul_ne_zero (mul_ne_zero (mul_ne_zero three_ne_zero hnc)
    (pow_ne_zero 2 hrc)) hsc)]
  push_cast
  ring

/-! ### The 32-gon instance used by shapely's default buffer -/

theorem discTurn_32_im : (discTurn 32).im = Real.sin (Real.pi / 16) := by
  rw [discTurn, Complex.exp_ofReal_mul_I_im]
  congr 1
  push_cast
  ring

theorem discTurn_32_ne_one : discTurn 32 ≠ 1 := by
  rw [discTurn]
  intro h
  rw [Complex.exp_eq_one_iff] at h
  obtain ⟨m, hm⟩ := h
  have hm' : ((2 * Real.pi / ((32 : ℕ) : ℝ) : ℝ) : ℂ) * Complex.I =
      (((m : ℝ) * (2 * Real.pi) : ℝ) : ℂ) * Complex.I := by
    rw [hm]
    push_cast
    ring
  have him : (2 * Real.pi / ((32 : ℕ) : ℝ) : ℝ) = (m : ℝ) * (2 * Real.pi) := by
    have h2 := congrArg Complex.im hm'
    simpa [Complex.mul_im] using h2
  push_cast at him
  have hπ := Real.pi_pos
  have hcancel : (1 : ℝ) = 32 * (m : ℝ) := by
    have hne : (2 * Real.pi : ℝ) ≠ 0 := by positivity
    apply mul_left_cancel₀ hne
    calc 2 * Real.pi * 1 = 2 * Real.pi := by ring
    _ = 32 * ((m : ℝ) * (2 * Real.pi)) := by
        rw [← him]
        ring
    _ = 2 * Real.pi * (32 * (m : ℝ)) := by ring
  have h32z : (1 : ℤ) = 32 * m := by exact_mod_cast hcancel
  omega

theorem discTurn_32_pow : discTurn 32 ^ 32 = 1 := by
  rw [discTurn, ← Complex.exp_nat_mul]
  rw [show ((32 : ℕ) : ℂ) * (((2 * Real.pi / ((32 : ℕ) : ℝ) : ℝ) : ℂ) * Complex.I) =
    2 * (Real.pi : ℂ) * Complex.I by push_cast; ring]
  exact Complex.exp_two_pi_mul_I

theorem discTurn_32_im_pos : 0 < (discTurn 32).im := by
  rw [discTurn_32_im]
  apply Real.sin_pos_of_pos_of_lt_pi
  · positivity
  · nlinarith [Real.pi_pos]

/-- Faceting bounds for the 32-gon disc: its area is between 98 percent of
the true disc area and the true disc area. -/
theorem disc32_area_bounds (r : ℝ) :
    0.98 * (Real.pi * r ^ 2) ≤ 32 * r ^ 2 * (discTurn 32).im / 2 ∧
      32 * r ^ 2 * (discTurn 32).im / 2 ≤ Real.pi * r ^ 2 := by
  rw [discTurn_32_im]
  have hπ := Real.pi_pos
  have hπ315 : Real.pi < 3.15 := Real.pi_lt_d2
  have hx0 : 0 < Real.pi / 16 := by positivity
  have hx1 : Real.pi / 16 ≤ 1 := by nlinarith
  constructor
  · have hsin := Real.sin_gt_sub_cube hx0 hx1
    have hπ2 : Real.pi ^ 2 < 9.9225 := by nlinarith [hπ315, hπ]
    have hkey2 : 0 < Real.pi * (20.48 - Real.pi ^ 2) := by
      apply mul_pos hπ
      nlinarith [hπ2]
    have key : 0.98 * Real.pi ≤ 16 * Real.sin (Real.pi / 16) := by
      nlinarith [hsin, hkey2]
    have hmul := mul_le_mul_of_nonneg_right key (sq_nonneg r)
    nlinarith [hmul]
  · have hsin := Real.sin_lt hx0
    have hmul := mul_le_mul_of_nonneg_right (le_of_lt hsin) (sq_nonneg r)
    nlinarith [hmul]

/-- The buffer ring realising `Shape2.disc c r` over the reals: the closed
32-vertex ring shapely produces for `Point(c).buffer(r)`. -/
noncomputable def discShapeRing (c : Pt2) (r : ℚ) : List ℂ :=
  discRing ⟨((c.1 : ℚ) : ℝ), ((c.2 : ℚ) : ℝ)⟩ ((r : ℚ) : ℝ) 32

/-- C3: For every Sphere record with effective radius r = params.radius *
scale > 0, slicing at height z returns a disc-approximation polygon whose
centroid is within 1e-3 of (location.x, location.y) and whose area
approximates pi r squared (within the disc faceting error — within 2 percent
for the 32-sided default buffer) exactly when |z - location.z| <= r; when z
is outside that band, or when r is zero or negative after scaling, no
polygon is produced (skipped silently, not an error). The centroid is in
fact exactly the center, hence within 1e-3 of it. -/
theorem sphere_slice_disc (obj : GeomObj) (zSlice rq : ℚ)
    (hp : obj.params = .sphere rq) :
    (sliceObj obj zSlice =
        [.disc (obj.location.1, obj.location.2.1) (rq * obj.scale)] ↔
      (0 < rq * obj.scale ∧ |zSlice - obj.location.2.2| ≤ rq * obj.scale)) ∧
    (¬(0 < rq * obj.scale ∧ |zSlice - obj.location.2.2| ≤ rq * obj.scale) →
      sliceObj obj zSlice = []) ∧
    (0 < rq * obj.scale →
      Complex.abs (ringCentroid
          (discShapeRing (obj.location.1, obj.location.2.1) (rq * obj.scale)) -
          ⟨((obj.location.1 : ℚ) : ℝ), ((obj.location.2.1 : ℚ) : ℝ)⟩) ≤ 1e-3 ∧
      0.98 * (Real.pi * ((rq * obj.scale : ℚ) : ℝ) ^ 2) ≤
        ringArea (discShapeRing (obj.location.1, obj.location.2.1) (rq * obj.scale)) ∧
      ringArea (discShapeRing (obj.location.1, obj.location.2.1) (rq * obj.scale)) ≤
        Real.pi * ((rq * obj.scale : ℚ) : ℝ) ^ 2) := by
  have hslice : sliceObj obj zSlice =
      if 0 < rq * obj.scale ∧ |zSlice - obj.location.2.2| ≤ rq * obj.scale then
        [.disc (obj.location.1, obj.location.2.1) (rq * obj.scale)]
      else [] := by
    simp only [sliceObj, hp]
  refine ⟨?_, ?_, ?_⟩
  · rw [hslice]
    split_ifs with h
    · simp [h]
    · simp [h]
  · intro h
    rw [hslice, if_neg h]
  · intro hpos
    have hposR : (0 : ℝ) < ((rq * obj.scale : ℚ) : ℝ) := by exact_mod_cast hpos
    refine ⟨?_, ?_, ?_⟩
    · rw [discShapeRing, discRing_centroid _ _ 32 discTurn_32_ne_one discTurn_32_pow
        (by norm_num) (ne_of_gt hposR) (ne_of_gt discTurn_32_im_pos)]
      rw [sub_self, map_zero]
      norm_num
    · rw [discShapeRing, discRing_area _ _ 32 discTurn_32_pow]
      push_cast
      exact (disc32_area_bounds _).1
    · rw [discShapeRing, discRing_area _ _ 32 discTurn_32_pow]
      push_cast
      exact (disc32_area_bounds _).2

/-- The sample sphere: radius 3, scale 2, centered at (0, 0, 5). -/
def sampleSphere : GeomObj := ⟨idMat, (0, 0, 5), 2, .sphere 3, []⟩

/-- Witness for C3 at the sample sphere, sliced at z = 5 (inside the band;
effective radius 6). -/
theorem sphere_slice_disc_witness :
    (sliceObj sampleSphere 5 =
        [.disc (sampleSphere.location.1, sampleSphere.location.2.1)
          (3 * sampleSphere.scale)] ↔
      (0 < 3 * sampleSphere.scale ∧
        |(5 : ℚ) - sampleSphere.location.2.2| ≤ 3 * sampleSphere.scale)) ∧
    (¬(0 < 3 * sampleSphere.scale ∧
        |(5 : ℚ) - sampleSphere.location.2.2| ≤ 3 * sampleSphere.scale) →
      sliceObj sampleSphere 5 = []) ∧
    (0 < 3 * sampleSphere.scale →
      Complex.abs (ringCentroid
          (discShapeRing (sampleSphere.location.1, sampleSphere.location.2.1)
            (3 * sampleSphere.scale)) -
          ⟨((sampleSphere.location.1 : ℚ) : ℝ), ((sampleSphere.location.2.1 : ℚ) : ℝ)⟩) ≤
        1e-3 ∧
      0.98 * (Real.pi * ((3 * sampleSphere.scale : ℚ) : ℝ) ^ 2) ≤
        ringArea (discShapeRing (sampleSphere.location.1, sampleSphere.location.2.1)
          (3 * sampleSphere.scale)) ∧
      ringArea (discShapeRing (sampleSphere.location.1, sampleSphere.location.2.1)
          (3 * sampleSphere.scale)) ≤
        Real.pi * ((3 * sampleSphere.scale : ℚ) : ℝ) ^ 2) :=
  sphere_slice_disc sampleSphere 5 3 rfl

end QuestWhiz
